import Mathlib

/-!
Peer-to-peer file transfer hook (`frontend/src/hooks/useWebRTC.js`).

A shallow embedding of the chunked transfer protocol implemented by the
`useWebRTC` hook: `sendFile` on the sending side and
`handleDataChannelMessage` with its three handlers on the receiving side,
together with the signaling functions `handleAnswer`, `handleIceCandidate` and
`disconnectPeer` of the hook and `generateRoomCode` of `App.js`.

Conventions of the embedding.

* React state (`peers`, `isConnected`, `dataChannels`, `transferProgress`) and
  the ref `iceCandidatesQueue` form the record `HookState`; a state setter
  called with an updater function is the application of that function.
* JavaScript objects used as string-keyed maps are association lists
  (`JSObject`) with the object operations read, spread-with-one-key and
  `delete`.
* Effects that leave the hook (messages handed to `dataChannel.send`, toasts,
  console lines) are returned as lists, oldest first.
* Integer-valued JavaScript numbers (`file.size`, the loop counter, the chunk
  count, slice bounds) are natural numbers: below `2^53` the double arithmetic
  on them is exact, and `file.size / 16384` is a division by a power of two.
  Fractional numbers (the progress percentages) are binary64 values,
  `JSNumber`, and `/` and `*` on them round to nearest, ties to even.
* `async`/`await` is sequential composition: the 1 ms pause every tenth chunk
  and `chunk.arrayBuffer()` have no effect on the state.
* The two `RTCPeerConnection` calls the signaling functions await are a
  parameter (`Browser`); a rejected promise or a thrown error is an
  `Except.error`.
* The guard `peers[peerId]` of the signaling functions reads through the
  prototype chain of the registry object (`JSObject.read`).
* The effect on `[peers]` is part of `setPeers`: its cleanup runs with the
  previous registry when the new one is installed (`closeRegistered`).
-/

namespace WebRTC

/-! ## JavaScript numbers -/

/-- A JavaScript number: a finite binary64 value (held as the rational it
denotes), an infinity, or NaN.  Negative zero is identified with zero. -/
inductive JSNumber where
  | finite (q : ℚ)
  | posInf
  | negInf
  | nan
  deriving DecidableEq

namespace JSNumber

/-- Exponent of the binade of `q`, clamped below at the subnormal range. -/
def binade (q : ℚ) : ℤ := max (Int.log 2 |q|) (-1022)

/-- Spacing of binary64 values in the binade of `q` (53-bit significand). -/
def ulp (q : ℚ) : ℚ := (2 : ℚ) ^ (binade q - 52)

/-- Nearest integer, a tie going to the even neighbour. -/
def roundTiesEven (x : ℚ) : ℤ :=
  let f := ⌊x⌋
  if x - f < 1 / 2 then f
  else if 1 / 2 < x - f then f + 1
  else if f % 2 = 0 then f else f + 1

/-- The multiple of `ulp q` nearest to `q`, a tie going to the even multiple. -/
def nearest (q : ℚ) : ℚ := roundTiesEven (q / ulp q) * ulp q

/-- The binary64 value nearest to the real number `q` (round to nearest, ties
to even), overflowing to an infinity from `2^1024` on. -/
def roundDouble (q : ℚ) : JSNumber :=
  let r : ℚ := nearest q
  if (2 : ℚ) ^ (1024 : ℕ) ≤ r then posInf
  else if r ≤ -(2 : ℚ) ^ (1024 : ℕ) then negInf
  else finite r

/-- The number denoted by a natural number (an integer-valued double). -/
def ofNat (n : ℕ) : JSNumber := finite (n : ℚ)

/-- The operator `a / b` on numbers. -/
def div : JSNumber → JSNumber → JSNumber
  | nan, _ => nan
  | _, nan => nan
  | finite a, finite b =>
      if b = 0 then (if a = 0 then nan else if 0 < a then posInf else negInf)
      else roundDouble (a / b)
  | finite _, posInf => finite 0
  | finite _, negInf => finite 0
  | posInf, finite b => if 0 ≤ b then posInf else negInf
  | negInf, finite b => if 0 ≤ b then negInf else posInf
  | posInf, posInf => nan
  | posInf, negInf => nan
  | negInf, posInf => nan
  | negInf, negInf => nan

/-- The operator `a * b` on numbers. -/
def mul : JSNumber → JSNumber → JSNumber
  | nan, _ => nan
  | _, nan => nan
  | finite a, finite b => roundDouble (a * b)
  | finite a, posInf => if a = 0 then nan else if 0 < a then posInf else negInf
  | finite a, negInf => if a = 0 then nan else if 0 < a then negInf else posInf
  | posInf, finite b => if b = 0 then nan else if 0 < b then posInf else negInf
  | negInf, finite b => if b = 0 then nan else if 0 < b then negInf else posInf
  | posInf, posInf => posInf
  | posInf, negInf => negInf
  | negInf, posInf => negInf
  | negInf, negInf => posInf

/-- The rational value of `(i / n) * 100` computed in doubles, for natural
numbers `i <= n`, `n > 0`. -/
def percent (i n : ℕ) : ℚ := nearest (nearest ((i : ℚ) / (n : ℚ)) * 100)

/-- The comparison `a <= b` on numbers (false when either side is NaN). -/
def le : JSNumber → JSNumber → Prop
  | nan, _ => False
  | _, nan => False
  | finite a, finite b => a ≤ b
  | negInf, _ => True
  | _, posInf => True
  | posInf, _ => False
  | _, negInf => False

/-- The comparison `a < b` on numbers (false when either side is NaN). -/
def lt : JSNumber → JSNumber → Prop
  | nan, _ => False
  | _, nan => False
  | finite a, finite b => a < b
  | posInf, _ => False
  | _, negInf => False
  | negInf, _ => True
  | _, posInf => True

end JSNumber

/-! ## Objects used as maps -/

/-- A JavaScript object with values of one type, as the list of its own
properties in insertion order. -/
abbrev JSObject (α : Type) := List (String × α)

namespace JSObject

variable {α : Type}

/-- Property read `o[k]`; `none` is `undefined`. -/
def get (o : JSObject α) (k : String) : Option α := o.lookup k

/-- The object `{ ...o, [k]: v }`: `k` keeps its place when `o` has it and is
added last otherwise. -/
def set (o : JSObject α) (k : String) (v : α) : JSObject α :=
  if o.any (fun p => p.1 == k) then o.map (fun p => if p.1 == k then (k, v) else p)
  else o ++ [(k, v)]

/-- The copy of `o` after `delete copy[k]`. -/
def delete (o : JSObject α) (k : String) : JSObject α :=
  o.filter (fun p => p.1 != k)

end JSObject

/-! ## Files, channel messages, hook state -/

/-- One byte of file content. -/
abbrev Byte := Fin 256

/-- A `File`: its name and its content; `size` is the content length. -/
structure File where
  name : String
  bytes : List Byte
  deriving DecidableEq

namespace File

/-- The attribute `file.size`. -/
def size (f : File) : ℕ := f.bytes.length

/-- The content of `file.slice(start, stop)` for non-negative bounds: both are
clamped to the size, and the span is empty when `stop` is not past `start`. -/
def slice (f : File) (start stop : ℕ) : List Byte :=
  let relativeStart := min start f.size
  let relativeEnd := min stop f.size
  (f.bytes.drop relativeStart).take (relativeEnd - relativeStart)

end File

/-- The object a control message carries, after `JSON.parse` and switched on
its `type` field. -/
inductive Envelope where
  | fileInfo (fileId : String) (fileName : String) (fileSize : JSNumber)
      (totalChunks : JSNumber)
  | fileChunk (fileId : String) (chunkIndex : JSNumber) (totalChunks : JSNumber)
  | fileComplete (fileId : String) (fileName : String)
  | other (type : String)
  deriving DecidableEq

/-- A message on the data channel: the JSON text of an envelope, or binary
data (an `ArrayBuffer`, on which `JSON.parse` throws). -/
inductive ChannelMessage where
  | json (e : Envelope)
  | binary (data : List Byte)
  deriving DecidableEq

/-- A toast or a console line. -/
inductive UiEvent where
  | toastSuccess (text : String)
  | toastError (text : String)
  | toastInfo (text : String)
  | consoleLog (args : List String)
  deriving DecidableEq

/-- The attribute `readyState` of a data channel. -/
inductive ReadyState where
  | connecting
  | opened
  | closing
  | closed
  deriving DecidableEq

/-- A data channel, as far as the hook reads it. -/
structure DataChannel where
  readyState : ReadyState
  deriving DecidableEq

/-- An `RTCPeerConnection`, as far as the hook drives it. -/
structure PeerConnection where
  initiator : Bool
  localDescription : Option String
  remoteDescription : Option String
  iceCandidates : List String
  closed : Bool
  deriving DecidableEq

/-- The state held by one instance of the hook. -/
structure HookState where
  peers : JSObject PeerConnection
  isConnected : Bool
  dataChannels : JSObject DataChannel
  transferProgress : JSObject JSNumber
  iceCandidatesQueue : List String
  deriving DecidableEq

/-- The state of a freshly mounted hook. -/
def HookState.initial : HookState :=
  { peers := [], isConnected := false, dataChannels := [], transferProgress := [],
    iceCandidatesQueue := [] }

/-! ## Sending: `sendFile` -/

/-- The constant `chunkSize` (16 KB chunks). -/
def chunkSize : ℕ := 16384

/-- The chunk count `Math.ceil(file.size / chunkSize)`. -/
def totalChunks (size : ℕ) : ℕ := ⌈(size : ℚ) / (chunkSize : ℚ)⌉₊

/-- The progress-table key of an outgoing transfer, the template literal with
`local-` before the file id. -/
def localKey (fileId : String) : String := "local-" ++ fileId

/-- The progress-table key of an incoming transfer, the template literal
joining peer id and file id with a dash. -/
def peerKey (peerId fileId : String) : String := peerId ++ "-" ++ fileId

/-- What a call of `sendFile` has done so far: the hook state, the messages
handed to `dataChannel.send` and the toasts shown, oldest first. -/
structure SendRun where
  state : HookState
  sent : List ChannelMessage
  ui : List UiEvent
  deriving DecidableEq

/-- The exit of `sendFile` taken when the peer has no open channel:
`toast.error('No connection to peer'); return;`. -/
def noConnection (st : HookState) : SendRun :=
  { state := st, sent := [], ui := [UiEvent.toastError "No connection to peer"] }

/-- The value `((i + 1) / totalChunks) * 100` written after chunk `i`. -/
def sendProgress (i total : ℕ) : JSNumber :=
  JSNumber.mul (JSNumber.div (JSNumber.ofNat (i + 1)) (JSNumber.ofNat total))
    (JSNumber.ofNat 100)

/-- One iteration of the chunk loop of `sendFile`, for loop counter `i`: slice
the file, send the chunk envelope, send the chunk bytes, write the progress
entry. -/
def sendChunk (file : File) (fileId : String) (total : ℕ) (run : SendRun) (i : ℕ) :
    SendRun :=
  let start := i * chunkSize
  let stop := min (start + chunkSize) file.size
  let chunk := file.slice start stop
  { state :=
      { run.state with
        transferProgress :=
          run.state.transferProgress.set (localKey fileId) (sendProgress i total) }
    sent := run.sent ++
      [ChannelMessage.json
          (Envelope.fileChunk fileId (JSNumber.ofNat i) (JSNumber.ofNat total)),
        ChannelMessage.binary chunk]
    ui := run.ui }

/-- The chunk loop `for (let i = 0; i < totalChunks; i++)` after its first `k`
iterations. -/
def sendLoop (file : File) (fileId : String) (total : ℕ) (run : SendRun) (k : ℕ) :
    SendRun :=
  (List.range k).foldl (sendChunk file fileId total) run

/-- The run of `sendFile` right after the `file-info` message. -/
def sendInfo (st : HookState) (file : File) (fileId : String) (total : ℕ) : SendRun :=
  { state := st
    sent := [ChannelMessage.json
      (Envelope.fileInfo fileId file.name (JSNumber.ofNat file.size) (JSNumber.ofNat total))]
    ui := [] }

/-- The end of `sendFile`: the `file-complete` message and the success toast. -/
def sendComplete (file : File) (fileId : String) (run : SendRun) : SendRun :=
  { state := run.state
    sent := run.sent ++ [ChannelMessage.json (Envelope.fileComplete fileId file.name)]
    ui := run.ui ++ [UiEvent.toastSuccess ("File " ++ file.name ++ " sent successfully!")] }

/-- The function `sendFile(file, peerId)`, called in state `st` when the clock
`Date.now()` reads `now`; the channel is taken to stay open during the call. -/
def sendFile (st : HookState) (now : ℕ) (file : File) (peerId : String) : SendRun :=
  match st.dataChannels.get peerId with
  | none => noConnection st
  | some dataChannel =>
    if dataChannel.readyState ≠ ReadyState.opened then noConnection st
    else
      let fileId := toString now
      let total := totalChunks file.size
      sendComplete file fileId
        (sendLoop file fileId total (sendInfo st file fileId total) total)

/-! ## Receiving: `handleDataChannelMessage` -/

/-- The value `(message.chunkIndex / message.totalChunks) * 100`. -/
def receiveProgress (chunkIndex total : JSNumber) : JSNumber :=
  JSNumber.mul (JSNumber.div chunkIndex total) (JSNumber.ofNat 100)

/-- The handler `handleFileInfo`: a console line and a toast. -/
def handleFileInfo (fileName peerId : String) (st : HookState) :
    HookState × List UiEvent :=
  (st, [UiEvent.consoleLog ["Receiving file:", fileName, "from peer:", peerId],
        UiEvent.toastInfo ("Receiving " ++ fileName ++ " from peer")])

/-- The handler `handleFileChunk`: write the progress entry of the transfer. -/
def handleFileChunk (fileId : String) (chunkIndex total : JSNumber) (peerId : String)
    (st : HookState) : HookState × List UiEvent :=
  ({ st with
      transferProgress :=
        st.transferProgress.set (peerKey peerId fileId) (receiveProgress chunkIndex total) },
    [])

/-- The handler `handleFileComplete`: a console line, a toast, and the removal
of the progress entry of the transfer. -/
def handleFileComplete (fileId fileName peerId : String) (st : HookState) :
    HookState × List UiEvent :=
  ({ st with transferProgress := st.transferProgress.delete (peerKey peerId fileId) },
    [UiEvent.consoleLog ["File transfer complete:", fileName],
     UiEvent.toastSuccess ("File " ++ fileName ++ " received successfully!")])

/-- The function `handleDataChannelMessage(data, peerId)`: parse, switch on the
type; binary data makes `JSON.parse` throw and is only logged. -/
def handleDataChannelMessage (data : ChannelMessage) (peerId : String) (st : HookState) :
    HookState × List UiEvent :=
  match data with
  | ChannelMessage.json (Envelope.fileInfo _ fileName _ _) => handleFileInfo fileName peerId st
  | ChannelMessage.json (Envelope.fileChunk fileId chunkIndex total) =>
      handleFileChunk fileId chunkIndex total peerId st
  | ChannelMessage.json (Envelope.fileComplete fileId fileName) =>
      handleFileComplete fileId fileName peerId st
  | ChannelMessage.json (Envelope.other type) =>
      (st, [UiEvent.consoleLog ["Unknown message type:", type]])
  | ChannelMessage.binary _ =>
      (st, [UiEvent.consoleLog ["Received binary data from peer:", peerId]])

/-- The `onmessage` handler of the channel to `peerId` run over a sequence of
messages in arrival order; the toasts and console lines accumulate. -/
def receiveAll (peerId : String) :
    List ChannelMessage → HookState × List UiEvent → HookState × List UiEvent
  | [], acc => acc
  | data :: rest, acc =>
      let next := handleDataChannelMessage data peerId acc.1
      receiveAll peerId rest (next.1, acc.2 ++ next.2)

/-! ## Observations used to state the properties -/

/-- The binary messages among `msgs`, in order. -/
def payloads : List ChannelMessage → List (List Byte)
  | [] => []
  | ChannelMessage.binary data :: rest => data :: payloads rest
  | ChannelMessage.json _ :: rest => payloads rest

/-- The file id carried by a control message. -/
def envelopeFileId : ChannelMessage → Option String
  | ChannelMessage.json (Envelope.fileInfo fileId _ _ _) => some fileId
  | ChannelMessage.json (Envelope.fileChunk fileId _ _) => some fileId
  | ChannelMessage.json (Envelope.fileComplete fileId _) => some fileId
  | _ => none

/-- The two messages the loop sends for chunk `i`. -/
def chunkMessages (file : File) (fileId : String) (total i : ℕ) : List ChannelMessage :=
  [ChannelMessage.json (Envelope.fileChunk fileId (JSNumber.ofNat i) (JSNumber.ofNat total)),
   ChannelMessage.binary
     (file.slice (i * chunkSize) (min (i * chunkSize + chunkSize) file.size))]

/-- The file bytes from offset `i * 16384` up to `min ((i + 1) * 16384) size`. -/
def chunkBytes (file : File) (i : ℕ) : List Byte :=
  (file.bytes.drop (i * 16384)).take (min ((i + 1) * 16384) file.size - i * 16384)

/-- The messages of the first `k` chunks of a transfer of `total` chunks, each
envelope followed by its payload `data i`, in index order. -/
def incomingChunks (fileId : String) (total : ℕ) (data : ℕ → List Byte) (k : ℕ) :
    List ChannelMessage :=
  (List.range k).flatMap (fun i =>
    [ChannelMessage.json (Envelope.fileChunk fileId (JSNumber.ofNat i) (JSNumber.ofNat total)),
     ChannelMessage.binary (data i)])

/-- The progress table `t` after the envelopes of chunks `0 .. k - 1` of a
transfer of `total` chunks were handled under the key `key`. -/
def tableAfterChunks (t : JSObject JSNumber) (key : String) (total k : ℕ) :
    JSObject JSNumber :=
  (List.range k).foldl
    (fun acc i => acc.set key (receiveProgress (JSNumber.ofNat i) (JSNumber.ofNat total))) t

/-- The console line logged for a binary message. -/
def binaryLog (peerId : String) : UiEvent :=
  UiEvent.consoleLog ["Received binary data from peer:", peerId]

/-- A hook state whose only data channel is an open one to `peerId`. -/
def connectedTo (peerId : String) : HookState :=
  { HookState.initial with dataChannels := [(peerId, { readyState := ReadyState.opened })] }

/-- A file of `n` zero bytes. -/
def zeroFile (name : String) (n : ℕ) : File := { name := name, bytes := List.replicate n 0 }

/-! ## Signaling: `handleAnswer`, `handleIceCandidate`, `disconnectPeer` -/

/-- The names of the properties every plain object inherits from
`Object.prototype`; each of them reads as a function or an object, a truthy
value with none of the methods of a connection. -/
def objectPrototypeKeys : List String :=
  ["constructor", "hasOwnProperty", "isPrototypeOf", "propertyIsEnumerable",
   "toLocaleString", "toString", "valueOf", "__proto__", "__defineGetter__",
   "__defineSetter__", "__lookupGetter__", "__lookupSetter__"]

/-- What the expression `o[k]` gives on a plain object used as a map: the value
of the own property, an inherited member of `Object.prototype`, or
`undefined`. -/
inductive Lookup (α : Type) where
  | own (value : α)
  | inherited
  | undefined
  deriving DecidableEq

/-- The read `o[k]` with the prototype chain: own properties first, then the
names of `Object.prototype`. -/
def JSObject.read {α : Type} (o : JSObject α) (k : String) : Lookup α :=
  match o.get k with
  | some v => Lookup.own v
  | none => if k ∈ objectPrototypeKeys then Lookup.inherited else Lookup.undefined

/-- What the browser does on the two asynchronous `RTCPeerConnection` calls the
hook awaits: the connection after the call, or the name of the error the
returned promise is rejected with.  The browser is not part of the repository,
so the hook is stated over any such behaviour. -/
structure Browser where
  setRemoteDescription : PeerConnection → String → Except String PeerConnection
  addIceCandidate : PeerConnection → String → Except String PeerConnection

/-- The call `peerConnection.close()`. -/
def PeerConnection.close (pc : PeerConnection) : PeerConnection := { pc with closed := true }

/-- The function `handleAnswer(peerId, answer)`: when `peers[peerId]` is truthy,
await `setRemoteDescription(answer)` on it (the connection object in the
registry is the one the browser changes); otherwise nothing.  An inherited
member of `Object.prototype` is truthy and has no such method, so the call
throws a `TypeError`.  An error is the rejection of the promise the function
returns. -/
def handleAnswer (browser : Browser) (st : HookState) (peerId answer : String) :
    Except String HookState :=
  match st.peers.read peerId with
  | Lookup.undefined => Except.ok st
  | Lookup.inherited => Except.error "TypeError"
  | Lookup.own peerConnection =>
    match browser.setRemoteDescription peerConnection answer with
    | Except.error e => Except.error e
    | Except.ok changed => Except.ok { st with peers := st.peers.set peerId changed }

/-- The function `handleIceCandidate(peerId, candidate)`: when `peers[peerId]`
is truthy, await `addIceCandidate(candidate)` on it; otherwise nothing. -/
def handleIceCandidate (browser : Browser) (st : HookState) (peerId candidate : String) :
    Except String HookState :=
  match st.peers.read peerId with
  | Lookup.undefined => Except.ok st
  | Lookup.inherited => Except.error "TypeError"
  | Lookup.own peerConnection =>
    match browser.addIceCandidate peerConnection candidate with
    | Except.error e => Except.error e
    | Except.ok changed => Except.ok { st with peers := st.peers.set peerId changed }

/-- Whether the object has an own property `k`. -/
def JSObject.hasOwn {α : Type} (o : JSObject α) (k : String) : Bool := (o.get k).isSome

/-- The cleanup of the effect that depends on `[peers]`,
`Object.values(peers).forEach(peer => peer.close())`, which React runs with the
previous registry each time `setPeers` installs a new one: every connection of
the previous registry is closed, so the ones still registered are closed
connections, and closing a connection puts its data channel in the state
`closed`.  The channel registered under a peer id is the channel of the
connection registered under that id (`setupDataChannel` is called with the id
the connection is created for). -/
def closeRegistered (previous : JSObject PeerConnection) (st : HookState) : HookState :=
  { st with
    peers := st.peers.map (fun p => (p.1, if previous.hasOwn p.1 then p.2.close else p.2))
    dataChannels := st.dataChannels.map (fun c =>
      (c.1, if previous.hasOwn c.1 then { readyState := ReadyState.closed } else c.2)) }

/-- The function `disconnectPeer(peerId)`: when `peers[peerId]` is truthy, close
the connection and take the key out of `peers` with `setPeers`, upon which the
effect cleanup runs with the previous registry; otherwise nothing.  An
inherited member of `Object.prototype` is truthy and has no `close`, so the
call throws a `TypeError` before `setPeers`. -/
def disconnectPeer (st : HookState) (peerId : String) : Except String HookState :=
  match st.peers.read peerId with
  | Lookup.undefined => Except.ok st
  | Lookup.inherited => Except.error "TypeError"
  | Lookup.own _ =>
    Except.ok (closeRegistered st.peers { st with peers := st.peers.delete peerId })

/-- The `onclose` handler `setupDataChannel` installs on the channel to
`peerId`: take the key out of `dataChannels`. -/
def dataChannelClosed (st : HookState) (peerId : String) : HookState :=
  { st with dataChannels := st.dataChannels.delete peerId }

/-! ## Room codes (`App.js`) -/

namespace JSNumber

/-- The operator `a + b` on numbers. -/
def add : JSNumber → JSNumber → JSNumber
  | nan, _ => nan
  | _, nan => nan
  | finite a, finite b => roundDouble (a + b)
  | finite _, posInf => posInf
  | finite _, negInf => negInf
  | posInf, finite _ => posInf
  | negInf, finite _ => negInf
  | posInf, posInf => posInf
  | posInf, negInf => nan
  | negInf, posInf => nan
  | negInf, negInf => negInf

/-- The function `Math.floor`. -/
def floor : JSNumber → JSNumber
  | finite q => finite (⌊q⌋ : ℤ)
  | x => x

/-- The method `toString()` of a number, for the values `Math.floor` returns:
an integer is printed in decimal digits (exact below `10^21`, from where
JavaScript switches to exponent form), the other values by their names.  A
finite value is printed as its integer part. -/
def toString : JSNumber → String
  | finite q => ToString.toString ⌊q⌋
  | posInf => "Infinity"
  | negInf => "-Infinity"
  | nan => "NaN"

/-- A rational number is a binary64 value when rounding leaves it as it is. -/
def IsDouble (q : ℚ) : Prop := nearest q = q

end JSNumber

/-- The function `generateRoomCode`, where `random` is the value `Math.random()`
returns: `Math.floor(100000 + random * 900000).toString()`. -/
def generateRoomCode (random : JSNumber) : String :=
  JSNumber.toString
    (JSNumber.floor
      (JSNumber.add (JSNumber.ofNat 100000) (JSNumber.mul random (JSNumber.ofNat 900000))))

/-- The test `code && code.length === 6` that `joinRoom` and the join from the
URL parameter apply to a room code (lengths agree with JavaScript on codes made
of digits). -/
def hasRoomCodeLength (code : String) : Bool := code != "" && code.length == 6

/-! ## Observations on the progress table -/

/-- A number is a percentage: it lies from 0 to 100 (so it is not NaN). -/
def IsPercentage (v : JSNumber) : Prop :=
  JSNumber.le (JSNumber.finite 0) v ∧ JSNumber.le v (JSNumber.finite 100)

/-- Every value read from the table is a percentage. -/
def AllPercentages (t : JSObject JSNumber) : Prop :=
  ∀ (key : String) (v : JSNumber), t.get key = some v → IsPercentage v

/-- A transfer as the progress table tells them apart: one sent by this hook,
or one received from a peer. -/
inductive Transfer where
  | sent (fileId : String)
  | received (peerId : String) (fileId : String)
  deriving DecidableEq

/-- The key of the progress entry of a transfer. -/
def Transfer.key : Transfer → String
  | Transfer.sent fileId => localKey fileId
  | Transfer.received peerId fileId => peerKey peerId fileId

/-- A hook with one registered connection to `peerId`, made by an initiator
that has set its local offer and awaits the answer, with an open data channel
to that peer and the progress entry `entry` of a transfer from that peer. -/
def awaitingAnswer (peerId offer : String) (entry : String × JSNumber) : HookState :=
  { peers := [(peerId, { initiator := true, localDescription := some offer,
                          remoteDescription := none, iceCandidates := [], closed := false })]
    isConnected := true
    dataChannels := [(peerId, { readyState := ReadyState.opened })]
    transferProgress := [entry]
    iceCandidatesQueue := [] }

/-- The number a string of decimal digits denotes. -/
def decimalValue (s : String) : ℕ :=
  Nat.ofDigits 10 (s.data.reverse.map (fun c => c.toNat - 48))

/-- A transfer whose key can be split back at its first dash: a sent one, or
one received from a peer whose id has no dash and is not the word `local`. -/
def Transfer.Separable : Transfer → Prop
  | Transfer.sent _ => True
  | Transfer.received peerId _ => '-' ∉ peerId.data ∧ peerId ≠ "local"

/-- The file id a run of `sendFile` announced in its first message. -/
def announcedFileId (run : SendRun) : Option String :=
  run.sent.head?.bind envelopeFileId

/-! ## Lemmas on numbers -/

namespace JSNumber

theorem roundTiesEven_intCast (k : ℤ) : roundTiesEven (k : ℚ) = k := by
  simp [roundTiesEven]

theorem roundTiesEven_le_floor_add_one (x : ℚ) : roundTiesEven x ≤ ⌊x⌋ + 1 := by
  unfold roundTiesEven
  simp only
  split_ifs <;> omega

theorem floor_le_roundTiesEven (x : ℚ) : ⌊x⌋ ≤ roundTiesEven x := by
  unfold roundTiesEven
  simp only
  split_ifs <;> omega

theorem roundTiesEven_mono {x y : ℚ} (h : x ≤ y) : roundTiesEven x ≤ roundTiesEven y := by
  have hfl : ⌊x⌋ ≤ ⌊y⌋ := Int.floor_mono h
  rcases hfl.lt_or_eq with hlt | heq
  · calc roundTiesEven x ≤ ⌊x⌋ + 1 := roundTiesEven_le_floor_add_one x
      _ ≤ ⌊y⌋ := hlt
      _ ≤ roundTiesEven y := floor_le_roundTiesEven y
  · unfold roundTiesEven
    simp only
    rw [heq]
    split_ifs <;> first | omega | (exfalso; linarith)

theorem abs_roundTiesEven_sub_le (x : ℚ) : |(roundTiesEven x : ℚ) - x| ≤ 1 / 2 := by
  have h1 := Int.floor_le x
  have h2 := Int.lt_floor_add_one x
  unfold roundTiesEven
  simp only
  rw [abs_le]
  split_ifs <;> push_cast <;> constructor <;> linarith


theorem two_zpow_pos (k : ℤ) : (0 : ℚ) < (2 : ℚ) ^ k := zpow_pos (by norm_num) k

theorem two_zpow_le {m n : ℤ} (h : m ≤ n) : (2 : ℚ) ^ m ≤ (2 : ℚ) ^ n :=
  zpow_le_zpow_right₀ (by norm_num) h

theorem ulp_pos (q : ℚ) : 0 < ulp q := two_zpow_pos _

theorem two_zpow_split (E : ℤ) (k : ℕ) :
    (2 : ℚ) ^ (E - 52 + k) = (2 : ℚ) ^ k * (2 : ℚ) ^ (E - 52) := by
  rw [zpow_add₀ (by norm_num : (2 : ℚ) ≠ 0), zpow_natCast, mul_comm]

theorem lt_two_zpow_binade_succ {q : ℚ} (hq : 0 < q) : q < (2 : ℚ) ^ (binade q + 1) := by
  have h1 : q < ((2 : ℕ) : ℚ) ^ (Int.log 2 q + 1) := Int.lt_zpow_succ_log_self (by norm_num) q
  have h2 : (2 : ℚ) ^ (Int.log 2 q + 1) ≤ (2 : ℚ) ^ (binade q + 1) := by
    apply two_zpow_le
    unfold binade
    rw [abs_of_pos hq]
    have := le_max_left (Int.log 2 q) (-1022)
    omega
  calc q < (2 : ℚ) ^ (Int.log 2 q + 1) := by exact_mod_cast h1
    _ ≤ _ := h2

theorem binade_eq_log {q : ℚ} (hq : 0 < q) (hn : (2 : ℚ) ^ (-1022 : ℤ) ≤ q) :
    binade q = Int.log 2 q := by
  unfold binade
  rw [abs_of_pos hq]
  apply max_eq_left
  have h : ((2 : ℕ) : ℚ) ^ (-1022 : ℤ) ≤ q := by exact_mod_cast hn
  exact (Int.zpow_le_iff_le_log (by norm_num) hq).mp h

theorem two_zpow_binade_le {q : ℚ} (hq : 0 < q) (hn : (2 : ℚ) ^ (-1022 : ℤ) ≤ q) :
    (2 : ℚ) ^ binade q ≤ q := by
  rw [binade_eq_log hq hn]
  have h : ((2 : ℕ) : ℚ) ^ Int.log 2 q ≤ q := Int.zpow_log_le_self (by norm_num) hq
  exact_mod_cast h

theorem binade_mono {a b : ℚ} (ha : 0 < a) (hab : a ≤ b) : binade a ≤ binade b := by
  unfold binade
  rw [abs_of_pos ha, abs_of_pos (lt_of_lt_of_le ha hab)]
  exact max_le_max (Int.log_mono_right ha hab) le_rfl

theorem neg_1022_le_binade (q : ℚ) : -1022 ≤ binade q := le_max_right _ _

/-- In a binade above the lowest one the number is normal. -/
theorem normal_of_binade_gt {q : ℚ} (hq : 0 < q) (h : -1022 < binade q) :
    (2 : ℚ) ^ binade q ≤ q := by
  have he : binade q = Int.log 2 q := by
    unfold binade at h ⊢
    rw [abs_of_pos hq] at h ⊢
    rcases le_total (Int.log 2 q) (-1022) with h1 | h1
    · rw [max_eq_right h1] at h; omega
    · exact max_eq_left h1
  rw [he]
  have h2 : ((2 : ℕ) : ℚ) ^ Int.log 2 q ≤ q := Int.zpow_log_le_self (by norm_num) hq
  exact_mod_cast h2

theorem nearest_le_top {q : ℚ} (hq : 0 < q) : nearest q ≤ (2 : ℚ) ^ (binade q + 1) := by
  unfold nearest
  have hu := ulp_pos q
  have h1 : q / ulp q ≤ (((2 : ℤ) ^ (53 : ℕ) : ℤ) : ℚ) := by
    rw [div_le_iff₀ hu]
    have h2 := lt_two_zpow_binade_succ hq
    have h3 : (2 : ℚ) ^ (binade q + 1) = (((2 : ℤ) ^ (53 : ℕ) : ℤ) : ℚ) * ulp q := by
      unfold ulp
      have := two_zpow_split (binade q) 53
      rw [show binade q - 52 + ((53 : ℕ) : ℤ) = binade q + 1 by push_cast; ring] at this
      rw [this]; push_cast; ring
    rw [← h3]; exact le_of_lt h2
  have h4 := roundTiesEven_mono h1
  rw [roundTiesEven_intCast] at h4
  have h5 : ((roundTiesEven (q / ulp q) : ℤ) : ℚ) ≤ (((2 : ℤ) ^ (53 : ℕ) : ℤ) : ℚ) :=
    Int.cast_le.mpr h4
  calc (roundTiesEven (q / ulp q) : ℚ) * ulp q
      ≤ (((2 : ℤ) ^ (53 : ℕ) : ℤ) : ℚ) * ulp q := mul_le_mul_of_nonneg_right h5 (le_of_lt hu)
    _ = (2 : ℚ) ^ (binade q + 1) := by
      unfold ulp
      have := two_zpow_split (binade q) 53
      rw [show binade q - 52 + ((53 : ℕ) : ℤ) = binade q + 1 by push_cast; ring] at this
      rw [this]; push_cast; ring

theorem bottom_le_nearest {q : ℚ} (hb : (2 : ℚ) ^ binade q ≤ q) :
    (2 : ℚ) ^ binade q ≤ nearest q := by
  unfold nearest
  have hu := ulp_pos q
  have h3 : (2 : ℚ) ^ binade q = (((2 : ℤ) ^ (52 : ℕ) : ℤ) : ℚ) * ulp q := by
    unfold ulp
    have := two_zpow_split (binade q) 52
    rw [show binade q - 52 + ((52 : ℕ) : ℤ) = binade q by push_cast; ring] at this
    rw [this]; push_cast; ring
  have h1 : (((2 : ℤ) ^ (52 : ℕ) : ℤ) : ℚ) ≤ q / ulp q := by
    rw [le_div_iff₀ hu, ← h3]; exact hb
  have h4 := roundTiesEven_mono h1
  rw [roundTiesEven_intCast] at h4
  have h5 : (((2 : ℤ) ^ (52 : ℕ) : ℤ) : ℚ) ≤ ((roundTiesEven (q / ulp q) : ℤ) : ℚ) :=
    Int.cast_le.mpr h4
  rw [h3]
  exact mul_le_mul_of_nonneg_right h5 (le_of_lt hu)

theorem nearest_zero : nearest 0 = 0 := by
  simp [nearest, roundTiesEven]

theorem nearest_nonneg {q : ℚ} (hq : 0 ≤ q) : 0 ≤ nearest q := by
  unfold nearest
  have hu := ulp_pos q
  have h1 : (0 : ℚ) ≤ q / ulp q := div_nonneg hq (le_of_lt hu)
  have h2 : roundTiesEven ((0 : ℤ) : ℚ) ≤ roundTiesEven (q / ulp q) :=
    roundTiesEven_mono (by simpa using h1)
  rw [roundTiesEven_intCast] at h2
  have h3 : (0 : ℚ) ≤ ((roundTiesEven (q / ulp q) : ℤ) : ℚ) := by exact_mod_cast h2
  exact mul_nonneg h3 (le_of_lt hu)

/-- Rounding to the nearest double is monotone on the non-negative reals. -/
theorem nearest_mono {a b : ℚ} (ha : 0 ≤ a) (hab : a ≤ b) : nearest a ≤ nearest b := by
  rcases ha.lt_or_eq with hpos | hzero
  · have hbpos : 0 < b := lt_of_lt_of_le hpos hab
    rcases (binade_mono hpos hab).lt_or_eq with hlt | heq
    · have hbn : (2 : ℚ) ^ binade b ≤ b :=
        normal_of_binade_gt hbpos (lt_of_le_of_lt (neg_1022_le_binade a) hlt)
      calc nearest a ≤ (2 : ℚ) ^ (binade a + 1) := nearest_le_top hpos
        _ ≤ (2 : ℚ) ^ binade b := two_zpow_le hlt
        _ ≤ nearest b := bottom_le_nearest hbn
    · unfold nearest
      have hu : ulp a = ulp b := by unfold ulp; rw [heq]
      rw [hu]
      have h1 : a / ulp b ≤ b / ulp b := div_le_div_of_nonneg_right hab (le_of_lt (ulp_pos b))
      have h2 := roundTiesEven_mono h1
      exact mul_le_mul_of_nonneg_right (Int.cast_le.mpr h2) (le_of_lt (ulp_pos b))
  · rw [← hzero, nearest_zero]
    exact nearest_nonneg (le_trans ha hab)

/-- The rounding error is at most half a unit in the last place. -/
theorem abs_nearest_sub_le (q : ℚ) : |nearest q - q| ≤ ulp q / 2 := by
  unfold nearest
  have hu := ulp_pos q
  have h := abs_roundTiesEven_sub_le (q / ulp q)
  have e : (roundTiesEven (q / ulp q) : ℚ) * ulp q - q =
      ((roundTiesEven (q / ulp q) : ℚ) - q / ulp q) * ulp q := by
    field_simp
  rw [e, abs_mul, abs_of_pos hu]
  calc |(roundTiesEven (q / ulp q) : ℚ) - q / ulp q| * ulp q ≤ 1 / 2 * ulp q :=
        mul_le_mul_of_nonneg_right h (le_of_lt hu)
    _ = ulp q / 2 := by ring


/-- A number `m * 2^k` with a significand below `2^53` and an exponent in range
is a double: rounding leaves it as it is. -/
theorem nearest_dyadic (m : ℕ) (k : ℤ) (hm0 : 0 < m) (hm : m < 2 ^ 53) (hk : -1074 ≤ k) :
    nearest ((m : ℚ) * (2 : ℚ) ^ k) = (m : ℚ) * (2 : ℚ) ^ k := by
  have hq : (0 : ℚ) < (m : ℚ) * (2 : ℚ) ^ k :=
    mul_pos (by exact_mod_cast hm0) (two_zpow_pos k)
  have hE : binade ((m : ℚ) * (2 : ℚ) ^ k) - 52 ≤ k := by
    rcases (neg_1022_le_binade ((m : ℚ) * (2 : ℚ) ^ k)).lt_or_eq with hgt | heq
    · have h1 := normal_of_binade_gt hq hgt
      have h2 : (m : ℚ) * (2 : ℚ) ^ k < (2 : ℚ) ^ (53 + k) := by
        rw [zpow_add₀ (by norm_num : (2 : ℚ) ≠ 0)]
        apply mul_lt_mul_of_pos_right _ (two_zpow_pos k)
        have e53 : (2 : ℚ) ^ (53 : ℤ) = ((2 ^ 53 : ℕ) : ℚ) := by norm_num
        rw [e53]
        exact_mod_cast hm
      have h3 : (2 : ℚ) ^ binade ((m : ℚ) * (2 : ℚ) ^ k) < (2 : ℚ) ^ (53 + k) :=
        lt_of_le_of_lt h1 h2
      have h4 := (zpow_lt_zpow_iff_right₀ (by norm_num : (1 : ℚ) < 2)).mp h3
      omega
    · omega
  obtain ⟨d, hd⟩ : ∃ d : ℕ, k = binade ((m : ℚ) * (2 : ℚ) ^ k) - 52 + d :=
    ⟨(k - (binade ((m : ℚ) * (2 : ℚ) ^ k) - 52)).toNat, by omega⟩
  have hu : ulp ((m : ℚ) * (2 : ℚ) ^ k) ≠ 0 := ne_of_gt (ulp_pos _)
  have hdiv : (m : ℚ) * (2 : ℚ) ^ k / ulp ((m : ℚ) * (2 : ℚ) ^ k) =
      (((m : ℤ) * (2 : ℤ) ^ d : ℤ) : ℚ) := by
    rw [div_eq_iff hu]
    have hs : (2 : ℚ) ^ k = (2 : ℚ) ^ d * ulp ((m : ℚ) * (2 : ℚ) ^ k) := by
      conv_lhs => rw [hd]
      exact two_zpow_split _ d
    have key : ∀ u : ℚ, (2 : ℚ) ^ k = (2 : ℚ) ^ d * u →
        (m : ℚ) * (2 : ℚ) ^ k = (((m : ℤ) * (2 : ℤ) ^ d : ℤ) : ℚ) * u := by
      intro u hu2
      rw [hu2]
      push_cast
      ring
    exact key _ hs
  unfold nearest
  rw [hdiv, roundTiesEven_intCast, ← hdiv, div_mul_cancel₀ _ hu]

theorem nearest_natCast (m : ℕ) (hm : m < 2 ^ 53) : nearest (m : ℚ) = (m : ℚ) := by
  rcases Nat.eq_zero_or_pos m with h0 | hpos
  · subst h0; simpa using nearest_zero
  · simpa using nearest_dyadic m 0 hpos hm (by norm_num)

theorem binade_le_of_lt {q : ℚ} (hq : 0 ≤ q) (k : ℤ) (hk : 1 ≤ k) (h : q < (2 : ℚ) ^ k) :
    binade q ≤ k - 1 := by
  unfold binade
  rw [abs_of_nonneg hq]
  apply max_le _ (by omega)
  rcases hq.lt_or_eq with hpos | hzero
  · have h1 : q < ((2 : ℕ) : ℚ) ^ k := by exact_mod_cast h
    have := (Int.lt_zpow_iff_log_lt (by norm_num) hpos).mp h1
    omega
  · rw [← hzero, Int.log_of_right_le_zero 2 le_rfl]; omega

theorem ulp_le_of_lt {q : ℚ} (hq : 0 ≤ q) (k : ℤ) (hk : 1 ≤ k) (h : q < (2 : ℚ) ^ k) :
    ulp q ≤ (2 : ℚ) ^ (k - 53) := by
  unfold ulp
  apply two_zpow_le
  have := binade_le_of_lt hq k hk h
  omega

/-- Rounding stays in range, so no infinity, on the interval from 0 to 128. -/
theorem roundDouble_of_le {q : ℚ} (hq : 0 ≤ q) (h : q ≤ 128) :
    roundDouble q = finite (nearest q) := by
  have h1 : nearest q ≤ 128 := by
    have := nearest_mono hq h
    have e : nearest (128 : ℚ) = 128 := by
      simpa using nearest_natCast 128 (by norm_num)
    rwa [e] at this
  have h0 := nearest_nonneg hq
  unfold roundDouble
  simp only
  rw [if_neg, if_neg]
  · intro hc
    have : (0 : ℚ) < (2 : ℚ) ^ (1024 : ℕ) := by positivity
    linarith
  · intro hc
    have h2 : (128 : ℚ) < (2 : ℚ) ^ (1024 : ℕ) := by norm_num
    linarith


theorem nearest_one : nearest 1 = 1 := by
  simpa using nearest_natCast 1 (by norm_num)

theorem nearest_hundred : nearest 100 = 100 := by
  simpa using nearest_natCast 100 (by norm_num)

theorem ratio_bounds {i n : ℕ} (hn : 0 < n) (hi : i ≤ n) :
    (0 : ℚ) ≤ (i : ℚ) / (n : ℚ) ∧ (i : ℚ) / (n : ℚ) ≤ 1 := by
  have hn' : (0 : ℚ) < (n : ℚ) := by exact_mod_cast hn
  constructor
  · positivity
  · rw [div_le_one hn']; exact_mod_cast hi

theorem nearest_ratio_bounds {i n : ℕ} (hn : 0 < n) (hi : i ≤ n) :
    0 ≤ nearest ((i : ℚ) / (n : ℚ)) ∧ nearest ((i : ℚ) / (n : ℚ)) ≤ 1 := by
  obtain ⟨h0, h1⟩ := ratio_bounds hn hi
  refine ⟨nearest_nonneg h0, ?_⟩
  have := nearest_mono h0 h1
  rwa [nearest_one] at this

theorem percent_bounds {i n : ℕ} (hn : 0 < n) (hi : i ≤ n) :
    0 ≤ percent i n ∧ percent i n ≤ 100 := by
  obtain ⟨h0, h1⟩ := nearest_ratio_bounds hn hi
  unfold percent
  have hw0 : (0 : ℚ) ≤ nearest ((i : ℚ) / (n : ℚ)) * 100 := by positivity
  have hw1 : nearest ((i : ℚ) / (n : ℚ)) * 100 ≤ 100 := by linarith
  refine ⟨nearest_nonneg hw0, ?_⟩
  have := nearest_mono hw0 hw1
  rwa [nearest_hundred] at this

theorem percent_mono {i j n : ℕ} (hij : i ≤ j) : percent i n ≤ percent j n := by
  unfold percent
  have hx : (i : ℚ) / (n : ℚ) ≤ (j : ℚ) / (n : ℚ) :=
    div_le_div_of_nonneg_right (by exact_mod_cast hij) (by positivity)
  have hy := nearest_mono (by positivity) hx
  have hy0 : 0 ≤ nearest ((i : ℚ) / (n : ℚ)) := nearest_nonneg (by positivity)
  apply nearest_mono (by positivity)
  linarith

theorem percent_self {n : ℕ} (hn : 0 < n) : percent n n = 100 := by
  have hn' : (n : ℚ) ≠ 0 := by exact_mod_cast (Nat.pos_iff_ne_zero.mp hn)
  unfold percent
  rw [div_self hn', nearest_one, one_mul, nearest_hundred]

theorem percent_zero (n : ℕ) : percent 0 n = 0 := by
  unfold percent
  simp [nearest_zero]

/-- Up to `2^50` chunks, distinct chunk counts give distinct percentages. -/
theorem percent_strictMono {i j n : ℕ} (hij : i < j) (hj : j ≤ n) (hn : n ≤ 2 ^ 50) :
    percent i n < percent j n := by
  have hnpos : 0 < n := by omega
  have hn' : (0 : ℚ) < (n : ℚ) := by exact_mod_cast hnpos
  obtain ⟨hx0, hx1⟩ := ratio_bounds hnpos (le_trans (le_of_lt hij) hj)
  obtain ⟨hx0', hx1'⟩ := ratio_bounds hnpos hj
  obtain ⟨hy0, hy1⟩ := nearest_ratio_bounds hnpos (le_trans (le_of_lt hij) hj)
  obtain ⟨hy0', hy1'⟩ := nearest_ratio_bounds hnpos hj
  -- the two quotients are at least `1 / n` apart
  have hgap : (1 : ℚ) / (n : ℚ) ≤ (j : ℚ) / (n : ℚ) - (i : ℚ) / (n : ℚ) := by
    rw [← sub_div]
    apply div_le_div_of_nonneg_right _ (le_of_lt hn')
    have : (i : ℚ) + 1 ≤ (j : ℚ) := by exact_mod_cast hij
    linarith
  have hn2 : (n : ℚ) ≤ 1125899906842624 := by
    have h : n ≤ 1125899906842624 := by norm_num at hn; exact hn
    exact_mod_cast h
  have hinv : (1 : ℚ) / 1125899906842624 ≤ (1 : ℚ) / (n : ℚ) :=
    one_div_le_one_div_of_le hn' hn2
  -- rounding errors of the two divisions
  have hu1 : ulp ((i : ℚ) / (n : ℚ)) ≤ (2 : ℚ) ^ ((1 : ℤ) - 53) :=
    ulp_le_of_lt hx0 1 le_rfl (by norm_num; linarith)
  have hu2 : ulp ((j : ℚ) / (n : ℚ)) ≤ (2 : ℚ) ^ ((1 : ℤ) - 53) :=
    ulp_le_of_lt hx0' 1 le_rfl (by norm_num; linarith)
  have he1 := abs_le.mp (abs_nearest_sub_le ((i : ℚ) / (n : ℚ)))
  have he2 := abs_le.mp (abs_nearest_sub_le ((j : ℚ) / (n : ℚ)))
  -- rounding errors of the two multiplications
  have hw0 : (0 : ℚ) ≤ nearest ((i : ℚ) / (n : ℚ)) * 100 := by positivity
  have hw0' : (0 : ℚ) ≤ nearest ((j : ℚ) / (n : ℚ)) * 100 := by positivity
  have hu3 : ulp (nearest ((i : ℚ) / (n : ℚ)) * 100) ≤ (2 : ℚ) ^ ((7 : ℤ) - 53) :=
    ulp_le_of_lt hw0 7 (by norm_num) (by norm_num; linarith)
  have hu4 : ulp (nearest ((j : ℚ) / (n : ℚ)) * 100) ≤ (2 : ℚ) ^ ((7 : ℤ) - 53) :=
    ulp_le_of_lt hw0' 7 (by norm_num) (by norm_num; linarith)
  have he3 := abs_le.mp (abs_nearest_sub_le (nearest ((i : ℚ) / (n : ℚ)) * 100))
  have he4 := abs_le.mp (abs_nearest_sub_le (nearest ((j : ℚ) / (n : ℚ)) * 100))
  norm_num at hu1 hu2 hu3 hu4
  unfold percent
  linarith [he1.1, he1.2, he2.1, he2.2, he3.1, he3.2, he4.1, he4.2]

theorem div_ofNat {i n : ℕ} (hn : 0 < n) (hi : i ≤ n) :
    div (ofNat i) (ofNat n) = finite (nearest ((i : ℚ) / (n : ℚ))) := by
  obtain ⟨h0, h1⟩ := ratio_bounds hn hi
  have hn' : (n : ℚ) ≠ 0 := by exact_mod_cast (Nat.pos_iff_ne_zero.mp hn)
  simp only [div, ofNat, hn', if_false]
  exact roundDouble_of_le h0 (by linarith)

/-- The value `(i / n) * 100` computed in doubles is the finite number
`percent i n`. -/
theorem mul_div_ofNat {i n : ℕ} (hn : 0 < n) (hi : i ≤ n) :
    mul (div (ofNat i) (ofNat n)) (ofNat 100) = finite (percent i n) := by
  obtain ⟨h0, h1⟩ := nearest_ratio_bounds hn hi
  rw [div_ofNat hn hi]
  simp only [mul, ofNat, percent, Nat.cast_ofNat]
  exact roundDouble_of_le (by positivity) (by linarith)

theorem percent_one_two : percent 1 2 = 50 := by
  have h1 : nearest ((1 : ℚ) / 2) = 1 / 2 := by
    have := nearest_dyadic 1 (-1) (by norm_num) (by norm_num) (by norm_num)
    norm_num at this
    exact this
  have h2 : nearest (50 : ℚ) = 50 := by
    simpa using nearest_natCast 50 (by norm_num)
  unfold percent
  norm_num
  rw [h1]
  norm_num
  exact h2

end JSNumber

/-! ## Lemmas on objects -/

namespace JSObject

variable {α : Type}

theorem get_nil (k : String) : get ([] : JSObject α) k = none := rfl

theorem get_cons (a : String) (b : α) (o : JSObject α) (k : String) :
    get ((a, b) :: o) k = if k = a then some b else get o k := by
  unfold get
  rw [List.lookup_cons]
  by_cases h : k = a
  · simp [h]
  · have : (k == a) = false := by simpa using h
    simp [this, h]

theorem get_map_replace (o : JSObject α) (k j : String) (v : α) :
    get (o.map (fun p => if p.1 == k then (k, v) else p)) j =
      if j = k then (get o k).map (fun _ => v) else get o j := by
  induction o with
  | nil => simp [get_nil]
  | cons p o ih =>
    obtain ⟨a, b⟩ := p
    by_cases hak : a = k
    · subst hak
      simp only [List.map_cons, beq_self_eq_true, if_true, get_cons, ih]
      by_cases hj : j = a
      · simp [hj]
      · simp [hj]
    · have hka : ¬ k = a := fun e => hak e.symm
      have hb : (a == k) = false := by simpa using hak
      simp only [List.map_cons, hb, get_cons, ih, hka, if_false, Bool.false_eq_true]
      by_cases hj : j = k
      · simp [hj, hka]
      · simp [hj]

theorem get_append_single (o : JSObject α) (k j : String) (v : α) :
    get (o ++ [(k, v)]) j = (get o j).orElse (fun _ => if j = k then some v else none) := by
  induction o with
  | nil => simp [get_nil, get_cons]
  | cons p o ih =>
    obtain ⟨a, b⟩ := p
    simp only [List.cons_append, get_cons, ih]
    by_cases hj : j = a
    · simp [hj]
    · simp [hj]

theorem any_key_eq_false_iff (o : JSObject α) (k : String) :
    o.any (fun p => p.1 == k) = false ↔ get o k = none := by
  induction o with
  | nil => simp [get_nil]
  | cons p o ih =>
    obtain ⟨a, b⟩ := p
    simp only [List.any_cons, Bool.or_eq_false_iff, ih, get_cons]
    by_cases hak : a = k
    · subst hak; simp
    · have hka : ¬ k = a := fun e => hak e.symm
      simp [hak, hka]

/-- Reading the key just written gives the value written. -/
theorem get_set_self (o : JSObject α) (k : String) (v : α) : get (set o k v) k = some v := by
  unfold set
  split
  · next h =>
    rw [get_map_replace]
    cases hg : get o k with
    | none => rw [(any_key_eq_false_iff o k).mpr hg] at h; simp at h
    | some w => simp
  · next h =>
    have h2 : get o k = none :=
      (any_key_eq_false_iff o k).mp (Bool.eq_false_iff.mpr h)
    rw [get_append_single, h2]; simp

/-- Writing one key leaves the reading of every other key as it was. -/
theorem get_set_of_ne (o : JSObject α) (k j : String) (v : α) (hne : j ≠ k) :
    get (set o k v) j = get o j := by
  unfold set
  split
  · rw [get_map_replace]; simp [hne]
  · rw [get_append_single]; simp [hne]

theorem get_delete (o : JSObject α) (k j : String) :
    get (delete o k) j = if j = k then none else get o j := by
  induction o with
  | nil => simp [delete, get_nil]
  | cons p o ih =>
    obtain ⟨a, b⟩ := p
    unfold delete at ih ⊢
    by_cases hak : a = k
    · subst hak
      simp only [List.filter_cons, bne_self_eq_false, Bool.false_eq_true, if_false, ih, get_cons]
      by_cases hj : j = a
      · simp [hj]
      · simp [hj]
    · have hb : (a != k) = true := by simpa using hak
      simp only [List.filter_cons, hb, if_true, get_cons, ih]
      by_cases hj : j = a
      · subst hj; simp [hak]
      · simp [hj]

/-- After a delete the key reads undefined. -/
theorem get_delete_self (o : JSObject α) (k : String) : get (delete o k) k = none := by
  rw [get_delete]; simp

/-- Deleting one key leaves the reading of every other key as it was. -/
theorem get_delete_of_ne (o : JSObject α) (k j : String) (hne : j ≠ k) :
    get (delete o k) j = get o j := by
  rw [get_delete]; simp [hne]

/-- Deleting a key the object does not have gives the same object. -/
theorem delete_of_get_none (o : JSObject α) (k : String) (h : get o k = none) :
    delete o k = o := by
  unfold delete
  rw [List.filter_eq_self]
  intro p hp
  have hany := (any_key_eq_false_iff o k).mpr h
  rw [List.any_eq_false] at hany
  have := hany p hp
  simpa using this

theorem filter_map_replace (o : JSObject α) (k : String) (v : α) :
    (o.map (fun p => if p.1 == k then (k, v) else p)).filter (fun p => p.1 != k) =
      o.filter (fun p => p.1 != k) := by
  induction o with
  | nil => rfl
  | cons p o ih =>
    obtain ⟨a, b⟩ := p
    by_cases hak : a = k
    · subst hak
      simp only [List.map_cons, beq_self_eq_true, if_true, List.filter_cons,
        bne_self_eq_false, Bool.false_eq_true, if_false]
      exact ih
    · have hb : (a == k) = false := by simpa using hak
      have hb2 : (a != k) = true := by simpa using hak
      simp only [List.map_cons, hb, Bool.false_eq_true, if_false, List.filter_cons, hb2,
        if_true]
      rw [ih]

/-- Writing a key and then deleting it is the same as deleting it. -/
theorem delete_set (o : JSObject α) (k : String) (v : α) :
    delete (set o k v) k = delete o k := by
  unfold set delete
  split
  · exact filter_map_replace o k v
  · simp

end JSObject

/-! ## Lemmas on the chunk loop -/

theorem sendLoop_zero (file : File) (fileId : String) (total : ℕ) (run : SendRun) :
    sendLoop file fileId total run 0 = run := rfl

theorem sendLoop_succ (file : File) (fileId : String) (total : ℕ) (run : SendRun) (k : ℕ) :
    sendLoop file fileId total run (k + 1) =
      sendChunk file fileId total (sendLoop file fileId total run k) k := by
  simp [sendLoop, List.range_succ, List.foldl_append]

theorem sendLoop_sent (file : File) (fileId : String) (total : ℕ) (run : SendRun) (k : ℕ) :
    (sendLoop file fileId total run k).sent =
      run.sent ++ (List.range k).flatMap (chunkMessages file fileId total) := by
  induction k with
  | zero => simp [sendLoop_zero]
  | succ k ih =>
    rw [sendLoop_succ]
    simp [sendChunk, ih, List.range_succ, chunkMessages]

theorem sendLoop_ui (file : File) (fileId : String) (total : ℕ) (run : SendRun) (k : ℕ) :
    (sendLoop file fileId total run k).ui = run.ui := by
  induction k with
  | zero => rfl
  | succ k ih => rw [sendLoop_succ]; simpa [sendChunk] using ih

theorem sendFile_of_open (st : HookState) (now : ℕ) (file : File) (peerId : String)
    (ch : DataChannel) (hch : st.dataChannels.get peerId = some ch)
    (hopen : ch.readyState = ReadyState.opened) :
    sendFile st now file peerId =
      sendComplete file (toString now)
        (sendLoop file (toString now) (totalChunks file.size)
          (sendInfo st file (toString now) (totalChunks file.size)) (totalChunks file.size)) := by
  simp [sendFile, hch, hopen]

theorem sendFile_sent (st : HookState) (now : ℕ) (file : File) (peerId : String)
    (ch : DataChannel) (hch : st.dataChannels.get peerId = some ch)
    (hopen : ch.readyState = ReadyState.opened) :
    (sendFile st now file peerId).sent =
      ChannelMessage.json (Envelope.fileInfo (toString now) file.name
          (JSNumber.ofNat file.size) (JSNumber.ofNat (totalChunks file.size))) ::
        ((List.range (totalChunks file.size)).flatMap
            (chunkMessages file (toString now) (totalChunks file.size)) ++
          [ChannelMessage.json (Envelope.fileComplete (toString now) file.name)]) := by
  rw [sendFile_of_open st now file peerId ch hch hopen]
  simp [sendComplete, sendLoop_sent, sendInfo]

theorem totalChunks_le_iff (size n : ℕ) : totalChunks size ≤ n ↔ size ≤ n * chunkSize := by
  unfold totalChunks
  rw [Nat.ceil_le, div_le_iff₀ (by norm_num [chunkSize])]
  exact_mod_cast Iff.rfl

theorem totalChunks_isLeast (size : ℕ) :
    IsLeast {n : ℕ | size ≤ n * 16384} (totalChunks size) := by
  constructor
  · exact (totalChunks_le_iff size _).mp le_rfl
  · intro n hn
    exact (totalChunks_le_iff size n).mpr hn

theorem totalChunks_eq_of_bounds (size n : ℕ) (hlo : n * 16384 < size + 16384)
    (hhi : size ≤ n * 16384) : totalChunks size = n := by
  apply le_antisymm
  · exact (totalChunks_le_iff size n).mpr hhi
  · by_contra hlt
    have h1 : totalChunks size ≤ n - 1 := by omega
    have h2 := (totalChunks_le_iff size (n - 1)).mp h1
    simp only [chunkSize] at h2
    omega

theorem payloads_append (a b : List ChannelMessage) :
    payloads (a ++ b) = payloads a ++ payloads b := by
  induction a with
  | nil => rfl
  | cons m a ih =>
    cases m with
    | json e => simpa [payloads] using ih
    | binary d => simp [payloads, ih]

theorem slice_eq_chunkBytes (file : File) (i : ℕ) :
    file.slice (i * chunkSize) (min (i * chunkSize + chunkSize) file.size) =
      chunkBytes file i := by
  unfold File.slice chunkBytes chunkSize File.size
  by_cases h : i * 16384 ≤ file.bytes.length
  · have e1 : min (i * 16384) file.bytes.length = i * 16384 := min_eq_left h
    have e2 : min (min (i * 16384 + 16384) file.bytes.length) file.bytes.length =
        min ((i + 1) * 16384) file.bytes.length := by
      rw [Nat.add_mul, Nat.one_mul]; omega
    simp only [e1, e2]
  · have h2 : file.bytes.length ≤ i * 16384 := by omega
    have e1 : min (i * 16384) file.bytes.length = file.bytes.length := min_eq_right h2
    have e3 : List.drop (i * 16384) file.bytes = [] := List.drop_of_length_le h2
    have e4 : List.drop file.bytes.length file.bytes = [] := List.drop_of_length_le le_rfl
    simp only [e1, e3, e4, List.take_nil]

theorem payloads_chunkMessages (file : File) (fileId : String) (total k : ℕ) :
    payloads ((List.range k).flatMap (chunkMessages file fileId total)) =
      (List.range k).map (chunkBytes file) := by
  induction k with
  | zero => rfl
  | succ k ih =>
    simp only [List.range_succ, List.flatMap_append, List.map_append, payloads_append, ih]
    simp [chunkMessages, payloads, slice_eq_chunkBytes]

theorem chunkBytes_eq_take (file : File) (i : ℕ) :
    chunkBytes file i = (file.bytes.drop (i * 16384)).take 16384 := by
  unfold chunkBytes File.size
  rw [List.take_eq_take]
  simp only [List.length_drop]
  omega

theorem flatten_chunkBytes (file : File) (k : ℕ) :
    ((List.range k).map (chunkBytes file)).flatten = file.bytes.take (k * 16384) := by
  induction k with
  | zero => simp
  | succ k ih =>
    rw [List.range_succ, List.map_append, List.flatten_append, ih, Nat.add_mul, Nat.one_mul,
      List.take_add]
    simp [chunkBytes_eq_take]

theorem flatten_all_chunkBytes (file : File) :
    ((List.range (totalChunks file.size)).map (chunkBytes file)).flatten = file.bytes := by
  rw [flatten_chunkBytes]
  apply List.take_of_length_le
  exact (totalChunks_le_iff file.size _).mp le_rfl

theorem zeroFile_size (name : String) (n : ℕ) : (zeroFile name n).size = n := by
  simp [zeroFile, File.size]

theorem connectedTo_channel (peerId : String) :
    (connectedTo peerId).dataChannels.get peerId = some { readyState := ReadyState.opened } := by
  simp [connectedTo, HookState.initial, JSObject.get_cons]

theorem receiveAll_append (peerId : String) (a b : List ChannelMessage)
    (acc : HookState × List UiEvent) :
    receiveAll peerId (a ++ b) acc = receiveAll peerId b (receiveAll peerId a acc) := by
  induction a generalizing acc with
  | nil => rfl
  | cons m a ih =>
    simp only [List.cons_append, receiveAll]
    exact ih _

theorem incomingChunks_succ (fileId : String) (total : ℕ) (data : ℕ → List Byte) (k : ℕ) :
    incomingChunks fileId total data (k + 1) =
      incomingChunks fileId total data k ++
        [ChannelMessage.json
          (Envelope.fileChunk fileId (JSNumber.ofNat k) (JSNumber.ofNat total)),
         ChannelMessage.binary (data k)] := by
  simp [incomingChunks, List.range_succ]

theorem tableAfterChunks_succ (t : JSObject JSNumber) (key : String) (total k : ℕ) :
    tableAfterChunks t key total (k + 1) =
      (tableAfterChunks t key total k).set key
        (receiveProgress (JSNumber.ofNat k) (JSNumber.ofNat total)) := by
  simp [tableAfterChunks, List.range_succ, List.foldl_append]

theorem chunkMessages_eq_incomingChunks (file : File) (fileId : String) (total k : ℕ) :
    (List.range k).flatMap (chunkMessages file fileId total) =
      incomingChunks fileId total
        (fun i => file.slice (i * chunkSize) (min (i * chunkSize + chunkSize) file.size)) k := by
  rfl

/-- The receiver after the first `k` chunks: only the progress table moved, and
each payload left one console line. -/
theorem receiveAll_incomingChunks (peerId fileId : String) (total : ℕ)
    (data : ℕ → List Byte) (k : ℕ) (st : HookState) (ui : List UiEvent) :
    receiveAll peerId (incomingChunks fileId total data k) (st, ui) =
      ({ st with
          transferProgress :=
            tableAfterChunks st.transferProgress (peerKey peerId fileId) total k },
        ui ++ List.replicate k (binaryLog peerId)) := by
  induction k with
  | zero => simp [incomingChunks, receiveAll, tableAfterChunks]
  | succ k ih =>
    rw [incomingChunks_succ, receiveAll_append, ih, tableAfterChunks_succ]
    simp [receiveAll, handleDataChannelMessage, handleFileChunk, binaryLog,
      List.replicate_succ']

theorem get_tableAfterChunks_succ (t : JSObject JSNumber) (key : String) (total k : ℕ) :
    (tableAfterChunks t key total (k + 1)).get key =
      some (receiveProgress (JSNumber.ofNat k) (JSNumber.ofNat total)) := by
  rw [tableAfterChunks_succ, JSObject.get_set_self]

theorem get_tableAfterChunks_of_ne (t : JSObject JSNumber) (key j : String) (total k : ℕ)
    (hne : j ≠ key) : (tableAfterChunks t key total k).get j = t.get j := by
  induction k with
  | zero => rfl
  | succ k ih => rw [tableAfterChunks_succ, JSObject.get_set_of_ne _ _ _ _ hne, ih]

theorem delete_tableAfterChunks (t : JSObject JSNumber) (key : String) (total k : ℕ) :
    (tableAfterChunks t key total k).delete key = t.delete key := by
  induction k with
  | zero => rfl
  | succ k ih => rw [tableAfterChunks_succ, JSObject.delete_set, ih]

/-- The receiver run over everything `sendFile` emits for a file: the outcome
is fixed by the file name, the chunk count and the file id. -/
theorem receiveAll_sendFile (sender receiver : HookState) (now : ℕ) (file : File)
    (peerId fromPeer : String) (ch : DataChannel)
    (hch : sender.dataChannels.get peerId = some ch)
    (hopen : ch.readyState = ReadyState.opened) :
    receiveAll fromPeer (sendFile sender now file peerId).sent (receiver, []) =
      ({ receiver with
          transferProgress :=
            receiver.transferProgress.delete (peerKey fromPeer (toString now)) },
        [UiEvent.consoleLog ["Receiving file:", file.name, "from peer:", fromPeer],
         UiEvent.toastInfo ("Receiving " ++ file.name ++ " from peer")] ++
          List.replicate (totalChunks file.size) (binaryLog fromPeer) ++
          [UiEvent.consoleLog ["File transfer complete:", file.name],
           UiEvent.toastSuccess ("File " ++ file.name ++ " received successfully!")]) := by
  rw [sendFile_sent sender now file peerId ch hch hopen, chunkMessages_eq_incomingChunks]
  rw [show ∀ (x : ChannelMessage) (l : List ChannelMessage), x :: l = [x] ++ l from
    fun _ _ => rfl, receiveAll_append, receiveAll_append]
  simp only [receiveAll, handleDataChannelMessage, handleFileInfo, List.nil_append]
  rw [receiveAll_incomingChunks]
  simp [receiveAll, handleDataChannelMessage, handleFileComplete, delete_tableAfterChunks]

theorem sendLoop_progress (file : File) (fileId : String) (total : ℕ) (run : SendRun)
    (k : ℕ) :
    (sendLoop file fileId total run (k + 1)).state.transferProgress.get (localKey fileId) =
      some (sendProgress k total) := by
  rw [sendLoop_succ]
  simp only [sendChunk]
  exact JSObject.get_set_self _ _ _

theorem totalChunks_le_of_size_lt (size : ℕ) (h : size < 2 ^ 53) :
    totalChunks size ≤ 2 ^ 50 := by
  apply le_trans ((totalChunks_le_iff size (2 ^ 39)).mpr _) (by norm_num)
  simp only [chunkSize]
  norm_num at h ⊢
  omega

theorem lt_of_percent_lt {i j n : ℕ} (hn : 0 < n) (hi : i ≤ n) (hj : j ≤ n)
    (h : JSNumber.percent i n < JSNumber.percent j n) :
    JSNumber.lt
      (JSNumber.mul (JSNumber.div (JSNumber.ofNat i) (JSNumber.ofNat n)) (JSNumber.ofNat 100))
      (JSNumber.mul (JSNumber.div (JSNumber.ofNat j) (JSNumber.ofNat n)) (JSNumber.ofNat 100)) := by
  rw [JSNumber.mul_div_ofNat hn hi, JSNumber.mul_div_ofNat hn hj]
  exact h

theorem le_of_percent_le {i j n : ℕ} (hn : 0 < n) (hi : i ≤ n) (hj : j ≤ n)
    (h : JSNumber.percent i n ≤ JSNumber.percent j n) :
    JSNumber.le
      (JSNumber.mul (JSNumber.div (JSNumber.ofNat i) (JSNumber.ofNat n)) (JSNumber.ofNat 100))
      (JSNumber.mul (JSNumber.div (JSNumber.ofNat j) (JSNumber.ofNat n)) (JSNumber.ofNat 100)) := by
  rw [JSNumber.mul_div_ofNat hn hi, JSNumber.mul_div_ofNat hn hj]
  exact h

/-! ## Lemmas for the room code and the file id -/

namespace JSNumber

/-- Rounding stays in range below any integer up to `2^53`. -/
theorem roundDouble_of_le_nat {q : ℚ} (hq : 0 ≤ q) (n : ℕ) (hn : n < 2 ^ 53) (h : q ≤ (n : ℚ)) :
    roundDouble q = finite (nearest q) := by
  have h1 : nearest q ≤ (n : ℚ) := by
    have := nearest_mono hq h
    rwa [nearest_natCast n hn] at this
  have h0 := nearest_nonneg hq
  have hn2 : (n : ℚ) < (2 : ℚ) ^ (53 : ℕ) := by exact_mod_cast hn
  have hbig : (2 : ℚ) ^ (53 : ℕ) < (2 : ℚ) ^ (1024 : ℕ) := by norm_num
  unfold roundDouble
  simp only
  rw [if_neg, if_neg]
  · intro hc
    have : (0 : ℚ) < (2 : ℚ) ^ (1024 : ℕ) := by positivity
    linarith
  · intro hc
    linarith

theorem roundDouble_natCast (n : ℕ) (hn : n < 2 ^ 53) : roundDouble (n : ℚ) = finite (n : ℚ) := by
  rw [roundDouble_of_le_nat (Nat.cast_nonneg n) n hn le_rfl, nearest_natCast n hn]

theorem binade_eq_of_bounds {q : ℚ} (e : ℤ) (he : -1022 ≤ e) (hlo : (2 : ℚ) ^ e ≤ q)
    (hhi : q < (2 : ℚ) ^ (e + 1)) : binade q = e := by
  have hq : 0 < q := lt_of_lt_of_le (two_zpow_pos e) hlo
  have h1 : e ≤ Int.log 2 q := by
    apply (Int.zpow_le_iff_le_log (by norm_num) hq).mp
    exact_mod_cast hlo
  have h2 : Int.log 2 q < e + 1 := by
    apply (Int.lt_zpow_iff_log_lt (by norm_num) hq).mp
    exact_mod_cast hhi
  unfold binade
  rw [abs_of_pos hq, max_eq_left (by omega)]
  omega

theorem roundTiesEven_eq_of_close (x : ℚ) (k : ℤ) (h : |x - (k : ℚ)| < 1 / 2) :
    roundTiesEven x = k := by
  have h1 := abs_le.mp (abs_roundTiesEven_sub_le x)
  have h2 := abs_lt.mp h
  have hlt : ((roundTiesEven x : ℤ) : ℚ) < ((k + 1 : ℤ) : ℚ) := by push_cast; linarith
  have hgt : ((k - 1 : ℤ) : ℚ) < ((roundTiesEven x : ℤ) : ℚ) := by push_cast; linarith
  have a := Int.cast_lt.mp hlt
  have b := Int.cast_lt.mp hgt
  omega

/-- The value of a rounding, from the binade of the number and the integer its
scaled value is closest to. -/
theorem nearest_eq_of_close {q : ℚ} (e k : ℤ) (he : -1022 ≤ e) (hlo : (2 : ℚ) ^ e ≤ q)
    (hhi : q < (2 : ℚ) ^ (e + 1)) (hk : |q / (2 : ℚ) ^ (e - 52) - (k : ℚ)| < 1 / 2) :
    nearest q = (k : ℚ) * (2 : ℚ) ^ (e - 52) := by
  unfold nearest ulp
  rw [binade_eq_of_bounds e he hlo hhi, roundTiesEven_eq_of_close _ k hk]

/-- The largest double below 1 times 900000 rounds to the double just below
900000. -/
theorem nearest_top_scaled :
    nearest ((1 - 1 / 2 ^ 53) * 900000) = 900000 - 1 / 2 ^ 33 := by
  have h := nearest_eq_of_close (q := (1 - 1 / 2 ^ 53) * 900000) 19 (900000 * 2 ^ 33 - 1)
    (by norm_num) (by norm_num) (by norm_num)
    (by rw [abs_lt]; constructor <;> norm_num)
  rw [h]
  norm_num

/-- A double below 1 is at most the largest double below 1. -/
theorem le_pred_one_of_isDouble {r : ℚ} (h1 : r < 1) (hr : IsDouble r) :
    r ≤ 1 - 1 / 2 ^ 53 := by
  by_contra hgt
  push_neg at hgt
  have hlo : (2 : ℚ) ^ (-1 : ℤ) ≤ r := by norm_num at hgt ⊢; linarith
  have hhi : r < (2 : ℚ) ^ ((-1 : ℤ) + 1) := by norm_num; exact h1
  have hb := binade_eq_of_bounds (-1) (by norm_num) hlo hhi
  unfold IsDouble nearest ulp at hr
  rw [hb] at hr
  have hu : (2 : ℚ) ^ ((-1 : ℤ) - 52) = 1 / 2 ^ 53 := by norm_num
  rw [hu] at hr
  set k := roundTiesEven (r / (1 / 2 ^ 53)) with hk
  have hr2 : r = (k : ℚ) / 2 ^ 53 := by rw [← hr]; ring
  rw [hr2] at hgt h1
  have hk1 : ((2 ^ 53 - 1 : ℤ) : ℚ) < (k : ℚ) := by
    have h53 : (0 : ℚ) < 2 ^ 53 := by positivity
    rw [lt_div_iff₀ h53] at hgt
    push_cast
    linarith
  have hk2 : (k : ℚ) < ((2 ^ 53 : ℤ) : ℚ) := by
    have h53 : (0 : ℚ) < 2 ^ 53 := by positivity
    rw [div_lt_iff₀ h53] at h1
    push_cast
    linarith
  have a := Int.cast_lt.mp hk1
  have b := Int.cast_lt.mp hk2
  omega

theorem nearest_below_million : nearest (1000000 - 1 / 2 ^ 33) = 1000000 - 1 / 2 ^ 33 := by
  have h := nearest_dyadic (1000000 * 2 ^ 33 - 1) (-33) (by norm_num) (by norm_num)
    (by norm_num)
  norm_num at h ⊢
  exact h

/-- The number `Math.floor(100000 + r * 900000)` for a double `r` in `[0, 1)`
is an integer from 100000 to 999999. -/
theorem floor_roomCode {r : ℚ} (h0 : 0 ≤ r) (h1 : r < 1) (hr : IsDouble r) :
    ∃ n : ℕ, 100000 ≤ n ∧ n ≤ 999999 ∧
      floor (add (ofNat 100000) (mul (finite r) (ofNat 900000))) = finite (n : ℚ) := by
  have hx0 : (0 : ℚ) ≤ r * 900000 := by positivity
  have hx1 : r * 900000 ≤ ((900000 : ℕ) : ℚ) := by push_cast; linarith
  have hmul : mul (finite r) (ofNat 900000) = finite (nearest (r * 900000)) := by
    simp only [mul, ofNat]
    exact roundDouble_of_le_nat (by push_cast; exact hx0) 900000 (by norm_num)
      (by push_cast; linarith)
  have hy0 : 0 ≤ nearest (r * 900000) := nearest_nonneg hx0
  have hy1 : nearest (r * 900000) ≤ 900000 - 1 / 2 ^ 33 := by
    have hle : r * 900000 ≤ (1 - 1 / 2 ^ 53) * 900000 := by
      have := le_pred_one_of_isDouble h1 hr
      linarith
    have := nearest_mono hx0 hle
    rwa [nearest_top_scaled] at this
  have hs0 : (0 : ℚ) ≤ 100000 + nearest (r * 900000) := by linarith
  have hadd : add (ofNat 100000) (finite (nearest (r * 900000))) =
      finite (nearest (100000 + nearest (r * 900000))) := by
    simp only [add, ofNat]
    have h33 : (0 : ℚ) < 1 / 2 ^ 33 := by positivity
    exact roundDouble_of_le_nat (by push_cast; exact hs0) 1000000 (by norm_num)
      (by push_cast; linarith)
  have hw0 : (100000 : ℚ) ≤ nearest (100000 + nearest (r * 900000)) := by
    have := nearest_mono (by norm_num : (0 : ℚ) ≤ 100000)
      (by linarith : (100000 : ℚ) ≤ 100000 + nearest (r * 900000))
    have e : nearest (100000 : ℚ) = 100000 := by
      simpa using nearest_natCast 100000 (by norm_num)
    rwa [e] at this
  have hw1 : nearest (100000 + nearest (r * 900000)) ≤ 1000000 - 1 / 2 ^ 33 := by
    have := nearest_mono hs0
      (by linarith : 100000 + nearest (r * 900000) ≤ (1000000 : ℚ) - 1 / 2 ^ 33)
    rwa [nearest_below_million] at this
  have hf0 : (100000 : ℤ) ≤ ⌊nearest (100000 + nearest (r * 900000))⌋ := by
    rw [Int.le_floor]; push_cast; exact hw0
  have hf1 : ⌊nearest (100000 + nearest (r * 900000))⌋ < (1000000 : ℤ) := by
    rw [Int.floor_lt]
    have h33 : (0 : ℚ) < 1 / 2 ^ 33 := by positivity
    push_cast; linarith
  refine ⟨⌊nearest (100000 + nearest (r * 900000))⌋.toNat, by omega, by omega, ?_⟩
  rw [hmul, hadd]
  simp only [floor]
  congr 1
  have : ((⌊nearest (100000 + nearest (r * 900000))⌋.toNat : ℤ)) =
      ⌊nearest (100000 + nearest (r * 900000))⌋ := Int.toNat_of_nonneg (by omega)
  exact_mod_cast this.symm

theorem toString_natCast (n : ℕ) : toString (finite (n : ℚ)) = ToString.toString n := by
  simp only [toString, Int.floor_natCast]
  rfl

end JSNumber

theorem toDigitsCore_eq_digits (fuel : ℕ) :
    ∀ (n : ℕ) (ds : List Char), n < fuel → 0 < n →
      Nat.toDigitsCore 10 fuel n ds = ((Nat.digits 10 n).reverse.map Nat.digitChar) ++ ds := by
  induction fuel with
  | zero => intro n ds h; omega
  | succ fuel ih =>
    intro n ds hn hpos
    rw [Nat.digits_def' (by norm_num) hpos]
    simp only [Nat.toDigitsCore]
    by_cases h0 : n / 10 = 0
    · simp [h0]
    · rw [if_neg h0, ih (n / 10) _ (by omega) (by omega)]
      simp

theorem toDigits_eq_digits (n : ℕ) (hpos : 0 < n) :
    Nat.toDigits 10 n = (Nat.digits 10 n).reverse.map Nat.digitChar := by
  unfold Nat.toDigits
  rw [toDigitsCore_eq_digits (n + 1) n [] (by omega) hpos]
  simp

theorem toString_nat_data (n : ℕ) (hpos : 0 < n) :
    (toString n).data = (Nat.digits 10 n).reverse.map Nat.digitChar := by
  show (Nat.repr n).data = _
  unfold Nat.repr
  rw [toDigits_eq_digits n hpos]
  rfl

/-- The decimal string of a number from 100000 to 999999 has six characters. -/
theorem toString_nat_length_six (n : ℕ) (hlo : 100000 ≤ n) (hhi : n ≤ 999999) :
    (toString n).length = 6 := by
  have hlog : Nat.log 10 n = 5 := by
    rw [Nat.log_eq_iff (by norm_num)]
    constructor <;> norm_num <;> omega
  show (toString n).data.length = 6
  rw [toString_nat_data n (by omega), List.length_map, List.length_reverse,
    Nat.digits_len 10 n (by norm_num) (by omega), hlog]

theorem digitChar_value (d : ℕ) (hd : d < 10) : (Nat.digitChar d).toNat - 48 = d := by
  interval_cases d <;> rfl

theorem decimalValue_toString (n : ℕ) : decimalValue (toString n) = n := by
  rcases Nat.eq_zero_or_pos n with h0 | hpos
  · subst h0; rfl
  · unfold decimalValue
    rw [toString_nat_data n hpos, ← List.map_reverse, List.reverse_reverse, List.map_map]
    have hmap : (Nat.digits 10 n).map ((fun c => c.toNat - 48) ∘ Nat.digitChar) =
        Nat.digits 10 n := by
      conv_rhs => rw [← List.map_id (Nat.digits 10 n)]
      apply List.map_congr_left
      intro d hd
      exact digitChar_value d (Nat.digits_lt_base (by norm_num) hd)
    rw [hmap, Nat.ofDigits_digits]

/-- Decimal strings of different numbers are different. -/
theorem toString_nat_injective (a b : ℕ) (h : toString a = toString b) : a = b := by
  have := congrArg decimalValue h
  rwa [decimalValue_toString, decimalValue_toString] at this

/-! ## Lemmas on keys, percentages and the signaling functions -/

theorem peerKey_data (peerId fileId : String) :
    (peerKey peerId fileId).data = peerId.data ++ '-' :: fileId.data := by
  simp [peerKey, String.data_append]

theorem localKey_eq_peerKey (fileId : String) : localKey fileId = peerKey "local" fileId := by
  apply String.ext
  simp [localKey, peerKey, String.data_append]

theorem split_at_first_dash (l₁ : List Char) :
    ∀ (l₂ r₁ r₂ : List Char), '-' ∉ l₁ → '-' ∉ l₂ →
      l₁ ++ '-' :: r₁ = l₂ ++ '-' :: r₂ → l₁ = l₂ ∧ r₁ = r₂ := by
  induction l₁ with
  | nil =>
    intro l₂ r₁ r₂ _ h₂ h
    cases l₂ with
    | nil => simpa using h
    | cons c l₂ =>
      simp only [List.nil_append, List.cons_append, List.cons.injEq] at h
      exact absurd (h.1 ▸ List.mem_cons_self _ _) h₂
  | cons c l₁ ih =>
    intro l₂ r₁ r₂ h₁ h₂ h
    cases l₂ with
    | nil =>
      simp only [List.nil_append, List.cons_append, List.cons.injEq] at h
      exact absurd (h.1 ▸ List.mem_cons_self _ _) h₁
    | cons d l₂ =>
      simp only [List.cons_append, List.cons.injEq] at h
      have hc : '-' ∉ l₁ := fun hm => h₁ (List.mem_cons_of_mem _ hm)
      have hd : '-' ∉ l₂ := fun hm => h₂ (List.mem_cons_of_mem _ hm)
      obtain ⟨e₁, e₂⟩ := ih l₂ r₁ r₂ hc hd h.2
      exact ⟨by rw [h.1, e₁], e₂⟩

/-- Keys of peers whose ids have no dash split back into peer id and file id. -/
theorem peerKey_injective (p₁ f₁ p₂ f₂ : String) (h₁ : '-' ∉ p₁.data) (h₂ : '-' ∉ p₂.data)
    (h : peerKey p₁ f₁ = peerKey p₂ f₂) : p₁ = p₂ ∧ f₁ = f₂ := by
  have hd := congrArg String.data h
  rw [peerKey_data, peerKey_data] at hd
  obtain ⟨e₁, e₂⟩ := split_at_first_dash _ _ _ _ h₁ h₂ hd
  exact ⟨String.ext e₁, String.ext e₂⟩

theorem local_has_no_dash : '-' ∉ ("local" : String).data := by decide

theorem key_injective (t₁ t₂ : Transfer) (h₁ : t₁.Separable) (h₂ : t₂.Separable)
    (h : t₁.key = t₂.key) : t₁ = t₂ := by
  cases t₁ with
  | sent f₁ =>
    cases t₂ with
    | sent f₂ =>
      simp only [Transfer.key, localKey_eq_peerKey] at h
      rw [(peerKey_injective _ _ _ _ local_has_no_dash local_has_no_dash h).2]
    | received p₂ f₂ =>
      simp only [Transfer.key, localKey_eq_peerKey] at h
      exact absurd (peerKey_injective _ _ _ _ local_has_no_dash h₂.1 h).1.symm h₂.2
  | received p₁ f₁ =>
    cases t₂ with
    | sent f₂ =>
      simp only [Transfer.key, localKey_eq_peerKey] at h
      exact absurd (peerKey_injective _ _ _ _ h₁.1 local_has_no_dash h).1 h₁.2
    | received p₂ f₂ =>
      simp only [Transfer.key] at h
      obtain ⟨e₁, e₂⟩ := peerKey_injective _ _ _ _ h₁.1 h₂.1 h
      rw [e₁, e₂]

theorem isPercentage_ratio {i n : ℕ} (hn : 0 < n) (hi : i ≤ n) :
    IsPercentage
      (JSNumber.mul (JSNumber.div (JSNumber.ofNat i) (JSNumber.ofNat n))
        (JSNumber.ofNat 100)) := by
  rw [JSNumber.mul_div_ofNat hn hi]
  exact JSNumber.percent_bounds hn hi

theorem allPercentages_nil : AllPercentages ([] : JSObject JSNumber) := by
  intro key v h
  simp [JSObject.get_nil] at h

theorem allPercentages_set (t : JSObject JSNumber) (key : String) (v : JSNumber)
    (ht : AllPercentages t) (hv : IsPercentage v) : AllPercentages (t.set key v) := by
  intro j w h
  by_cases hj : j = key
  · rw [hj, JSObject.get_set_self] at h
    cases h
    exact hv
  · rw [JSObject.get_set_of_ne _ _ _ _ hj] at h
    exact ht j w h

theorem allPercentages_delete (t : JSObject JSNumber) (key : String)
    (ht : AllPercentages t) : AllPercentages (t.delete key) := by
  intro j w h
  by_cases hj : j = key
  · rw [hj, JSObject.get_delete_self] at h
    cases h
  · rw [JSObject.get_delete_of_ne _ _ _ hj] at h
    exact ht j w h

theorem allPercentages_sendLoop (file : File) (fileId : String) (total : ℕ) (run : SendRun)
    (h : AllPercentages run.state.transferProgress) (k : ℕ) (hk : k ≤ total) :
    AllPercentages (sendLoop file fileId total run k).state.transferProgress := by
  induction k with
  | zero => exact h
  | succ k ih =>
    rw [sendLoop_succ]
    simp only [sendChunk]
    exact allPercentages_set _ _ _ (ih (by omega)) (isPercentage_ratio (by omega) hk)

theorem allPercentages_sendFile (st : HookState) (now : ℕ) (file : File) (peerId : String)
    (h : AllPercentages st.transferProgress) :
    AllPercentages (sendFile st now file peerId).state.transferProgress := by
  unfold sendFile
  split
  · exact h
  · split
    · exact h
    · exact allPercentages_sendLoop file _ _ (sendInfo st file _ _) h _ le_rfl

theorem progress_five_of_two :
    JSNumber.mul (JSNumber.div (JSNumber.ofNat 5) (JSNumber.ofNat 2)) (JSNumber.ofNat 100) =
      JSNumber.finite 250 := by
  have h1 : JSNumber.nearest ((5 : ℚ) / 2) = 5 / 2 := by
    have := JSNumber.nearest_dyadic 5 (-1) (by norm_num) (by norm_num) (by norm_num)
    norm_num at this
    exact this
  have hdiv : JSNumber.div (JSNumber.ofNat 5) (JSNumber.ofNat 2) = JSNumber.finite (5 / 2) := by
    simp only [JSNumber.div, JSNumber.ofNat]
    norm_num
    rw [JSNumber.roundDouble_of_le_nat (by norm_num) 3 (by norm_num) (by norm_num), h1]
  rw [hdiv]
  simp only [JSNumber.mul, JSNumber.ofNat]
  have e : (5 : ℚ) / 2 * ((100 : ℕ) : ℚ) = ((250 : ℕ) : ℚ) := by norm_num
  rw [e, JSNumber.roundDouble_natCast 250 (by norm_num)]
  norm_num

theorem not_isPercentage_250 : ¬ IsPercentage (JSNumber.finite 250) := by
  intro h
  have h2 : (250 : ℚ) ≤ 100 := h.2
  norm_num at h2

theorem sendFile_final_progress (st : HookState) (now : ℕ) (file : File) (peerId : String)
    (ch : DataChannel) (hch : st.dataChannels.get peerId = some ch)
    (hopen : ch.readyState = ReadyState.opened) (hn : 1 ≤ totalChunks file.size) :
    (sendFile st now file peerId).state.transferProgress.get (localKey (toString now)) =
      some (JSNumber.finite 100) := by
  rw [sendFile_of_open st now file peerId ch hch hopen]
  simp only [sendComplete]
  obtain ⟨m, hm⟩ : ∃ m, totalChunks file.size = m + 1 := ⟨totalChunks file.size - 1, by omega⟩
  rw [hm, sendLoop_progress]
  simp only [sendProgress]
  rw [JSNumber.mul_div_ofNat (by omega) le_rfl, JSNumber.percent_self (by omega)]

theorem sendFile_last_message (st : HookState) (now : ℕ) (file : File) (peerId : String)
    (ch : DataChannel) (hch : st.dataChannels.get peerId = some ch)
    (hopen : ch.readyState = ReadyState.opened) :
    (sendFile st now file peerId).sent.getLast? =
      some (ChannelMessage.json (Envelope.fileComplete (toString now) file.name)) := by
  rw [sendFile_sent st now file peerId ch hch hopen]
  simp [List.getLast?_cons, List.getLast?_append]

theorem announcedFileId_sendFile (st : HookState) (now : ℕ) (file : File) (peerId : String)
    (ch : DataChannel) (hch : st.dataChannels.get peerId = some ch)
    (hopen : ch.readyState = ReadyState.opened) :
    announcedFileId (sendFile st now file peerId) = some (toString now) := by
  unfold announcedFileId
  rw [sendFile_sent st now file peerId ch hch hopen]
  rfl

theorem generateRoomCode_eq {r : ℚ} (h0 : 0 ≤ r) (h1 : r < 1) (hr : JSNumber.IsDouble r) :
    ∃ n : ℕ, 100000 ≤ n ∧ n ≤ 999999 ∧ generateRoomCode (JSNumber.finite r) = toString n := by
  obtain ⟨n, hlo, hhi, hn⟩ := JSNumber.floor_roomCode h0 h1 hr
  refine ⟨n, hlo, hhi, ?_⟩
  unfold generateRoomCode
  rw [hn, JSNumber.toString_natCast]

theorem hasRoomCodeLength_of_length (code : String) (h : code.length = 6) :
    hasRoomCodeLength code = true := by
  unfold hasRoomCodeLength
  have hne : code ≠ "" := by
    intro he
    rw [he] at h
    exact absurd h (by decide)
  simp [h, hne]

theorem isDouble_half : JSNumber.IsDouble (1 / 2) := by
  unfold JSNumber.IsDouble
  have := JSNumber.nearest_dyadic 1 (-1) (by norm_num) (by norm_num) (by norm_num)
  norm_num at this
  exact this

theorem generateRoomCode_half : generateRoomCode (JSNumber.finite (1 / 2)) = "550000" := by
  have hmul : JSNumber.mul (JSNumber.finite (1 / 2)) (JSNumber.ofNat 900000) =
      JSNumber.finite ((450000 : ℕ) : ℚ) := by
    simp only [JSNumber.mul, JSNumber.ofNat]
    have e : (1 : ℚ) / 2 * ((900000 : ℕ) : ℚ) = ((450000 : ℕ) : ℚ) := by norm_num
    rw [e, JSNumber.roundDouble_natCast 450000 (by norm_num)]
  have hadd : JSNumber.add (JSNumber.ofNat 100000) (JSNumber.finite ((450000 : ℕ) : ℚ)) =
      JSNumber.finite ((550000 : ℕ) : ℚ) := by
    simp only [JSNumber.add, JSNumber.ofNat]
    have e : ((100000 : ℕ) : ℚ) + ((450000 : ℕ) : ℚ) = ((550000 : ℕ) : ℚ) := by norm_num
    rw [e, JSNumber.roundDouble_natCast 550000 (by norm_num)]
  unfold generateRoomCode
  rw [hmul, hadd]
  simp only [JSNumber.floor, Int.floor_natCast]
  have e : (((550000 : ℕ) : ℤ) : ℚ) = ((550000 : ℕ) : ℚ) := by norm_num
  rw [e, JSNumber.toString_natCast]
  decide

/-! ## Lemmas on reads through the prototype and on the effect cleanup -/

theorem read_of_get_some {α : Type} (o : JSObject α) (k : String) (v : α)
    (h : o.get k = some v) : o.read k = Lookup.own v := by
  simp [JSObject.read, h]

theorem get_of_read_own {α : Type} (o : JSObject α) (k : String) (v : α)
    (h : o.read k = Lookup.own v) : o.get k = some v := by
  unfold JSObject.read at h
  cases hg : o.get k with
  | none =>
    rw [hg] at h
    simp only at h
    split at h <;> cases h
  | some w =>
    rw [hg] at h
    simp only [Lookup.own.injEq] at h
    rw [h]

theorem get_of_read_undefined {α : Type} (o : JSObject α) (k : String)
    (h : o.read k = Lookup.undefined) : o.get k = none := by
  unfold JSObject.read at h
  cases hg : o.get k with
  | none => rfl
  | some w =>
    rw [hg] at h
    cases h

theorem get_map_value {α : Type} (o : JSObject α) (f : String → α → α) (k : String) :
    JSObject.get (o.map (fun p => (p.1, f p.1 p.2))) k = (JSObject.get o k).map (f k) := by
  induction o with
  | nil => rfl
  | cons p o ih =>
    obtain ⟨a, b⟩ := p
    simp only [List.map_cons, JSObject.get_cons, ih]
    by_cases hk : k = a
    · simp [hk]
    · simp [hk]

theorem close_close (pc : PeerConnection) : pc.close.close = pc.close := rfl

/-- The state `disconnectPeer` leaves for a registered peer. -/
theorem disconnectPeer_of_own (st : HookState) (peerId : String) (pc : PeerConnection)
    (h : st.peers.read peerId = Lookup.own pc) :
    disconnectPeer st peerId =
      Except.ok (closeRegistered st.peers { st with peers := st.peers.delete peerId }) := by
  simp [disconnectPeer, h]

/-- The effect cleanup that runs when `disconnectPeer` changes the registry
closes the connection of every peer that stays registered. -/
theorem disconnectPeer_closes_others (st : HookState) (peerId other : String)
    (hne : other ≠ peerId) :
    (closeRegistered st.peers
        { st with peers := st.peers.delete peerId }).peers.get other =
      (st.peers.get other).map PeerConnection.close := by
  simp only [closeRegistered]
  rw [get_map_value (st.peers.delete peerId)
    (fun k v => if st.peers.hasOwn k then v.close else v) other,
    JSObject.get_delete_of_ne _ _ _ hne]
  cases hg : st.peers.get other with
  | none => rfl
  | some v => simp [JSObject.hasOwn, hg]

/-! ## The claims -/

/-- C1: over an open channel the first message `sendFile` emits is the
file-info envelope, whose `totalChunks` field is `Math.ceil(size / 16384)`, and
that value is the least natural number `n` with `n * 16384 >= size`. -/
theorem sendFile_announces_ceiling (st : HookState) (now : ℕ) (file : File)
    (peerId : String) (ch : DataChannel) (hch : st.dataChannels.get peerId = some ch)
    (hopen : ch.readyState = ReadyState.opened) :
    (sendFile st now file peerId).sent.head? =
        some (ChannelMessage.json (Envelope.fileInfo (toString now) file.name
          (JSNumber.ofNat file.size) (JSNumber.ofNat (totalChunks file.size)))) ∧
      totalChunks file.size = ⌈(file.size : ℚ) / 16384⌉₊ ∧
      IsLeast {n : ℕ | file.size ≤ n * 16384} (totalChunks file.size) := by
  refine ⟨?_, ?_, totalChunks_isLeast file.size⟩
  · rw [sendFile_sent st now file peerId ch hch hopen]
    rfl
  · simp [totalChunks, chunkSize]

/-- Witness for C1: a 40000-byte file sent to the connected peer "B". -/
theorem sendFile_announces_ceiling_witness :
    (connectedTo "B").dataChannels.get "B" = some { readyState := ReadyState.opened } ∧
      (sendFile (connectedTo "B") 1700000000000 (zeroFile "a.bin" 40000) "B").sent.head? =
        some (ChannelMessage.json (Envelope.fileInfo (toString 1700000000000) "a.bin"
          (JSNumber.ofNat (zeroFile "a.bin" 40000).size)
          (JSNumber.ofNat (totalChunks (zeroFile "a.bin" 40000).size)))) ∧
      totalChunks (zeroFile "a.bin" 40000).size = 3 :=
  ⟨connectedTo_channel "B",
    (sendFile_announces_ceiling (connectedTo "B") 1700000000000 (zeroFile "a.bin" 40000) "B"
      { readyState := ReadyState.opened } (connectedTo_channel "B") rfl).1,
    totalChunks_eq_of_bounds _ 3 (by rw [zeroFile_size]; decide)
      (by rw [zeroFile_size]; decide)⟩

/-- C2: over an open channel the binary payloads `sendFile` emits are, in
order, the file bytes from `i * 16384` up to `min ((i + 1) * 16384) size` for
`i = 0 .. totalChunks - 1`; concatenated they are the file, and their lengths
add up to the file size. -/
theorem sendFile_payloads (st : HookState) (now : ℕ) (file : File) (peerId : String)
    (ch : DataChannel) (hch : st.dataChannels.get peerId = some ch)
    (hopen : ch.readyState = ReadyState.opened) :
    payloads (sendFile st now file peerId).sent =
        (List.range (totalChunks file.size)).map
          (fun i => (file.bytes.drop (i * 16384)).take
            (min ((i + 1) * 16384) file.size - i * 16384)) ∧
      (payloads (sendFile st now file peerId).sent).flatten = file.bytes ∧
      ((payloads (sendFile st now file peerId).sent).map List.length).sum = file.size := by
  have hp : payloads (sendFile st now file peerId).sent =
      (List.range (totalChunks file.size)).map (chunkBytes file) := by
    rw [sendFile_sent st now file peerId ch hch hopen]
    simp [payloads, payloads_append, payloads_chunkMessages]
  refine ⟨hp, ?_, ?_⟩
  · rw [hp]; exact flatten_all_chunkBytes file
  · rw [← List.length_flatten, hp, flatten_all_chunkBytes]; rfl

/-- Witness for C2: a 40000-byte file gives three payloads of lengths 16384,
16384 and 7232. -/
theorem sendFile_payloads_witness :
    (connectedTo "B").dataChannels.get "B" = some { readyState := ReadyState.opened } ∧
      (payloads (sendFile (connectedTo "B") 1700000000000 (zeroFile "a.bin" 40000) "B").sent).map
        List.length = [16384, 16384, 7232] ∧
      (payloads (sendFile (connectedTo "B") 1700000000000
        (zeroFile "a.bin" 40000) "B").sent).flatten = (zeroFile "a.bin" 40000).bytes := by
  have h := sendFile_payloads (connectedTo "B") 1700000000000 (zeroFile "a.bin" 40000) "B"
    { readyState := ReadyState.opened } (connectedTo_channel "B") rfl
  refine ⟨connectedTo_channel "B", ?_, h.2.1⟩
  have hn : totalChunks (zeroFile "a.bin" 40000).size = 3 :=
    totalChunks_eq_of_bounds _ 3 (by rw [zeroFile_size]; decide) (by rw [zeroFile_size]; decide)
  have hlen : (zeroFile "a.bin" 40000).bytes.length = 40000 := zeroFile_size "a.bin" 40000
  rw [h.1, hn, zeroFile_size]
  simp [List.range_succ, List.length_take, List.length_drop, hlen]

/-- C3: over an open channel `sendFile` emits exactly: the file-info envelope,
then for `i = 0, 1, .., n - 1` in this order the file-chunk envelope with index
`i` followed by the bytes of chunk `i`, then the file-complete envelope; these
are `2 * n + 2` messages, every envelope among them carries the one file id,
and for `n = 0` the sequence is file-info followed by file-complete. -/
theorem sendFile_message_sequence (st : HookState) (now : ℕ) (file : File)
    (peerId : String) (ch : DataChannel) (hch : st.dataChannels.get peerId = some ch)
    (hopen : ch.readyState = ReadyState.opened) :
    (sendFile st now file peerId).sent =
        [ChannelMessage.json (Envelope.fileInfo (toString now) file.name
          (JSNumber.ofNat file.size) (JSNumber.ofNat (totalChunks file.size)))] ++
        (List.range (totalChunks file.size)).flatMap (fun i =>
          [ChannelMessage.json (Envelope.fileChunk (toString now) (JSNumber.ofNat i)
              (JSNumber.ofNat (totalChunks file.size))),
           ChannelMessage.binary ((file.bytes.drop (i * 16384)).take
              (min ((i + 1) * 16384) file.size - i * 16384))]) ++
        [ChannelMessage.json (Envelope.fileComplete (toString now) file.name)] ∧
      (sendFile st now file peerId).sent.length = 2 * totalChunks file.size + 2 ∧
      (∀ m ∈ (sendFile st now file peerId).sent,
        envelopeFileId m = some (toString now) ∨ ∃ data, m = ChannelMessage.binary data) ∧
      (totalChunks file.size = 0 →
        (sendFile st now file peerId).sent =
          [ChannelMessage.json (Envelope.fileInfo (toString now) file.name
            (JSNumber.ofNat file.size) (JSNumber.ofNat 0)),
           ChannelMessage.json (Envelope.fileComplete (toString now) file.name)]) := by
  have hs := sendFile_sent st now file peerId ch hch hopen
  have hfun : chunkMessages file (toString now) (totalChunks file.size) = fun i =>
      [ChannelMessage.json (Envelope.fileChunk (toString now) (JSNumber.ofNat i)
          (JSNumber.ofNat (totalChunks file.size))),
       ChannelMessage.binary ((file.bytes.drop (i * 16384)).take
          (min ((i + 1) * 16384) file.size - i * 16384))] := by
    funext i
    simp only [chunkMessages, slice_eq_chunkBytes, chunkBytes]
  refine ⟨?_, ?_, ?_, ?_⟩
  · rw [hs, hfun]; simp
  · rw [hs]
    have hlen : ∀ k, ((List.range k).flatMap
        (chunkMessages file (toString now) (totalChunks file.size))).length = 2 * k := by
      intro k
      induction k with
      | zero => rfl
      | succ k ih =>
        rw [List.range_succ, List.flatMap_append, List.length_append, ih]
        simp [chunkMessages]
        omega
    simp only [List.length_cons, List.length_append, hlen, List.length_nil]
  · intro m hm
    rw [hs] at hm
    simp only [List.mem_cons, List.mem_append, List.mem_flatMap, List.mem_range,
      List.mem_singleton, List.not_mem_nil, or_false] at hm
    rcases hm with rfl | ⟨i, _, hi⟩ | rfl
    · exact Or.inl rfl
    · simp only [chunkMessages, List.mem_cons, List.mem_singleton, List.not_mem_nil,
        or_false] at hi
      rcases hi with rfl | rfl
      · exact Or.inl rfl
      · exact Or.inr ⟨_, rfl⟩
    · exact Or.inl rfl
  · intro h0
    rw [hs, h0]
    rfl

/-- Witness for C3: the empty file sent to the connected peer "B" gives
file-info followed by file-complete. -/
theorem sendFile_message_sequence_witness :
    (connectedTo "B").dataChannels.get "B" = some { readyState := ReadyState.opened } ∧
      (sendFile (connectedTo "B") 1700000000000 (zeroFile "e.txt" 0) "B").sent =
        [ChannelMessage.json (Envelope.fileInfo (toString 1700000000000) "e.txt"
            (JSNumber.ofNat 0) (JSNumber.ofNat 0)),
         ChannelMessage.json (Envelope.fileComplete (toString 1700000000000) "e.txt")] ∧
      (sendFile (connectedTo "B") 1700000000000 (zeroFile "e.txt" 0) "B").sent.length =
        2 * totalChunks (zeroFile "e.txt" 0).size + 2 := by
  have h := sendFile_message_sequence (connectedTo "B") 1700000000000 (zeroFile "e.txt" 0) "B"
    { readyState := ReadyState.opened } (connectedTo_channel "B") rfl
  have hn : totalChunks (zeroFile "e.txt" 0).size = 0 :=
    totalChunks_eq_of_bounds _ 0 (by rw [zeroFile_size]; decide) (by rw [zeroFile_size])
  exact ⟨connectedTo_channel "B", h.2.2.2 hn, h.2.1⟩

/-- C4, counterexample: two one-byte files of the same name with different
content, each sent to peer "B" and received from peer "A" in a fresh hook, leave
the receiver with the same state and the same lines and toasts, and that state
is the fresh state: no byte of either file is kept. -/
theorem receiver_keeps_no_content :
    receiveAll "A"
        (sendFile (connectedTo "B") 1700000000000 { name := "a.bin", bytes := [0] } "B").sent
        (HookState.initial, []) =
      receiveAll "A"
        (sendFile (connectedTo "B") 1700000000000 { name := "a.bin", bytes := [1] } "B").sent
        (HookState.initial, []) ∧
    ({ name := "a.bin", bytes := [0] } : File).bytes ≠
      ({ name := "a.bin", bytes := [1] } : File).bytes ∧
    (receiveAll "A"
        (sendFile (connectedTo "B") 1700000000000 { name := "a.bin", bytes := [0] } "B").sent
        (HookState.initial, [])).1 = HookState.initial := by
  have h0 := receiveAll_sendFile (connectedTo "B") HookState.initial 1700000000000
    { name := "a.bin", bytes := [0] } "B" "A" { readyState := ReadyState.opened }
    (connectedTo_channel "B") rfl
  have h1 := receiveAll_sendFile (connectedTo "B") HookState.initial 1700000000000
    { name := "a.bin", bytes := [1] } "B" "A" { readyState := ReadyState.opened }
    (connectedTo_channel "B") rfl
  refine ⟨?_, by decide, ?_⟩
  · rw [h0, h1]; rfl
  · rw [h0]; rfl

/-- C4, amended: the receiver run over the exact message sequence `sendFile`
emits for a file logs and toasts the reception, logs one line per payload and
drops the payload, and ends in its starting state with the progress entry of
the transfer absent; the outcome is the same for any other file of the same
name and size, so no received file is produced. -/
theorem receiver_discards_payloads (sender receiver : HookState) (now : ℕ) (file : File)
    (peerId fromPeer : String) (ch : DataChannel)
    (hch : sender.dataChannels.get peerId = some ch)
    (hopen : ch.readyState = ReadyState.opened) :
    receiveAll fromPeer (sendFile sender now file peerId).sent (receiver, []) =
        ({ receiver with
            transferProgress :=
              receiver.transferProgress.delete (peerKey fromPeer (toString now)) },
          [UiEvent.consoleLog ["Receiving file:", file.name, "from peer:", fromPeer],
           UiEvent.toastInfo ("Receiving " ++ file.name ++ " from peer")] ++
            List.replicate (totalChunks file.size)
              (UiEvent.consoleLog ["Received binary data from peer:", fromPeer]) ++
            [UiEvent.consoleLog ["File transfer complete:", file.name],
             UiEvent.toastSuccess ("File " ++ file.name ++ " received successfully!")]) ∧
      ∀ other : File, other.name = file.name → other.size = file.size →
        receiveAll fromPeer (sendFile sender now other peerId).sent (receiver, []) =
          receiveAll fromPeer (sendFile sender now file peerId).sent (receiver, []) := by
  refine ⟨receiveAll_sendFile sender receiver now file peerId fromPeer ch hch hopen, ?_⟩
  intro other hname hsize
  rw [receiveAll_sendFile sender receiver now file peerId fromPeer ch hch hopen,
    receiveAll_sendFile sender receiver now other peerId fromPeer ch hch hopen, hname, hsize]

/-- Witness for C4 (amended): the empty file sent to the connected peer "B" and
received from peer "A" in a fresh hook. -/
theorem receiver_discards_payloads_witness :
    (connectedTo "B").dataChannels.get "B" = some { readyState := ReadyState.opened } ∧
      receiveAll "A" (sendFile (connectedTo "B") 1700000000000 (zeroFile "e.txt" 0) "B").sent
          (HookState.initial, []) =
        (HookState.initial,
          [UiEvent.consoleLog ["Receiving file:", "e.txt", "from peer:", "A"],
           UiEvent.toastInfo "Receiving e.txt from peer",
           UiEvent.consoleLog ["File transfer complete:", "e.txt"],
           UiEvent.toastSuccess "File e.txt received successfully!"]) := by
  have h := (receiver_discards_payloads (connectedTo "B") HookState.initial 1700000000000
    (zeroFile "e.txt" 0) "B" "A" { readyState := ReadyState.opened }
    (connectedTo_channel "B") rfl).1
  have hn : totalChunks (zeroFile "e.txt" 0).size = 0 :=
    totalChunks_eq_of_bounds _ 0 (by rw [zeroFile_size]; decide) (by rw [zeroFile_size])
  rw [hn] at h
  refine ⟨connectedTo_channel "B", ?_⟩
  rw [h]
  decide

/-- C5: when the `dataChannels` map has no channel for the peer, or the channel
it has is not open, `sendFile` shows the error toast "No connection to peer",
sends no message and returns with the hook state (progress table, channels,
peers) as it was. -/
theorem sendFile_without_open_channel (st : HookState) (now : ℕ) (file : File)
    (peerId : String)
    (h : st.dataChannels.get peerId = none ∨
      ∃ ch, st.dataChannels.get peerId = some ch ∧ ch.readyState ≠ ReadyState.opened) :
    (sendFile st now file peerId).ui = [UiEvent.toastError "No connection to peer"] ∧
      (sendFile st now file peerId).sent = [] ∧
      (sendFile st now file peerId).state = st ∧
      (sendFile st now file peerId).state.transferProgress = st.transferProgress := by
  have hrun : sendFile st now file peerId = noConnection st := by
    rcases h with hnone | ⟨ch, hch, hclosed⟩
    · simp [sendFile, hnone]
    · simp [sendFile, hch, hclosed]
  rw [hrun]
  exact ⟨rfl, rfl, rfl, rfl⟩

/-- Witness for C5: a fresh hook, which has no channel to "B". -/
theorem sendFile_without_open_channel_witness :
    ((HookState.initial.dataChannels.get "B" = none ∨
        ∃ ch, HookState.initial.dataChannels.get "B" = some ch ∧
          ch.readyState ≠ ReadyState.opened) ∧
      (sendFile HookState.initial 1700000000000 (zeroFile "a.bin" 3) "B").sent = [] ∧
      (sendFile HookState.initial 1700000000000 (zeroFile "a.bin" 3) "B").state =
        HookState.initial) :=
  ⟨Or.inl rfl,
    (sendFile_without_open_channel HookState.initial 1700000000000 (zeroFile "a.bin" 3) "B"
      (Or.inl rfl)).2.1,
    (sendFile_without_open_channel HookState.initial 1700000000000 (zeroFile "a.bin" 3) "B"
      (Or.inl rfl)).2.2.1⟩

/-- C6, counterexample: a transfer of one chunk. After the file-info and the
file-chunk envelope with index 0, the last one, the progress recorded for the
transfer is 0, not 100. -/
theorem receiver_progress_single_chunk :
    (receiveAll "A"
        [ChannelMessage.json (Envelope.fileInfo "1700000000000" "a.bin" (JSNumber.ofNat 1)
            (JSNumber.ofNat 1)),
         ChannelMessage.json (Envelope.fileChunk "1700000000000" (JSNumber.ofNat 0)
            (JSNumber.ofNat 1))]
        (HookState.initial, [])).1.transferProgress.get (peerKey "A" "1700000000000") =
      some (JSNumber.finite 0) ∧
    JSNumber.finite 0 ≠ JSNumber.finite 100 := by
  constructor
  · simp only [receiveAll, handleDataChannelMessage, handleFileInfo, handleFileChunk,
      receiveProgress]
    rw [JSObject.get_set_self, JSNumber.mul_div_ofNat (by norm_num) (by norm_num),
      JSNumber.percent_zero]
  · decide

/-- C6, amended: for a transfer of `n >= 1` chunks (at most `2^50`) whose
file-chunk envelopes arrive in index order, the progress recorded after the
envelope with index `k` is `k / n * 100`; these values are non-decreasing in
`k`, and the value after the last envelope, `(n - 1) / n * 100`, is below 100. -/
theorem receiver_progress_monotone (st : HookState) (peerId fileId : String) (n : ℕ)
    (data : ℕ → List Byte) (hn : 1 ≤ n) (hbound : n ≤ 2 ^ 50) :
    (∀ k, k < n →
      (receiveAll peerId (incomingChunks fileId n data (k + 1))
          (st, [])).1.transferProgress.get (peerKey peerId fileId) =
        some (JSNumber.mul (JSNumber.div (JSNumber.ofNat k) (JSNumber.ofNat n))
          (JSNumber.ofNat 100))) ∧
    (∀ i j, i ≤ j → j < n →
      JSNumber.le
        (JSNumber.mul (JSNumber.div (JSNumber.ofNat i) (JSNumber.ofNat n)) (JSNumber.ofNat 100))
        (JSNumber.mul (JSNumber.div (JSNumber.ofNat j) (JSNumber.ofNat n))
          (JSNumber.ofNat 100))) ∧
    JSNumber.lt
      (JSNumber.mul (JSNumber.div (JSNumber.ofNat (n - 1)) (JSNumber.ofNat n))
        (JSNumber.ofNat 100))
      (JSNumber.finite 100) := by
  refine ⟨?_, ?_, ?_⟩
  · intro k _
    rw [receiveAll_incomingChunks]
    exact get_tableAfterChunks_succ _ _ _ _
  · intro i j hij hj
    exact le_of_percent_le hn (by omega) (by omega) (JSNumber.percent_mono hij)
  · have h := lt_of_percent_lt hn (Nat.sub_le n 1) le_rfl
      (JSNumber.percent_strictMono (by omega) le_rfl hbound)
    rw [JSNumber.mul_div_ofNat hn le_rfl, JSNumber.percent_self hn] at h
    exact h

/-- Witness for C6 (amended): a transfer of two chunks received in a fresh
hook; after the last envelope the progress is 50. -/
theorem receiver_progress_monotone_witness :
    1 ≤ 2 ∧ 2 ≤ 2 ^ 50 ∧
      (receiveAll "A" (incomingChunks "1700000000000" 2 (fun _ => []) 2)
          (HookState.initial, [])).1.transferProgress.get (peerKey "A" "1700000000000") =
        some (JSNumber.finite 50) := by
  have h := (receiver_progress_monotone HookState.initial "A" "1700000000000" 2
    (fun _ => []) (by norm_num) (by norm_num)).1 1 (by norm_num)
  refine ⟨by norm_num, by norm_num, ?_⟩
  rw [h, JSNumber.mul_div_ofNat (by norm_num) (by norm_num), JSNumber.percent_one_two]

/-- C7: for a file of `n >= 1` chunks (size below `2^53`) sent over an open
channel, the progress entry of the transfer after chunk `i` holds
`(i + 1) / n * 100`; these values are strictly increasing in `i`, lie above 0
and at most at 100, and the entry is exactly 100 when the loop ends, which is
the state in which file-complete is sent and in which `sendFile` returns. -/
theorem sendFile_progress (st : HookState) (now : ℕ) (file : File) (peerId : String)
    (ch : DataChannel) (hch : st.dataChannels.get peerId = some ch)
    (hopen : ch.readyState = ReadyState.opened) (hsize : file.size < 2 ^ 53)
    (hn : 1 ≤ totalChunks file.size) :
    (∀ i, i < totalChunks file.size →
      (sendLoop file (toString now) (totalChunks file.size)
          (sendInfo st file (toString now) (totalChunks file.size))
          (i + 1)).state.transferProgress.get (localKey (toString now)) =
        some (JSNumber.mul
          (JSNumber.div (JSNumber.ofNat (i + 1)) (JSNumber.ofNat (totalChunks file.size)))
          (JSNumber.ofNat 100))) ∧
    (∀ i j, i < j → j < totalChunks file.size →
      JSNumber.lt
        (JSNumber.mul
          (JSNumber.div (JSNumber.ofNat (i + 1)) (JSNumber.ofNat (totalChunks file.size)))
          (JSNumber.ofNat 100))
        (JSNumber.mul
          (JSNumber.div (JSNumber.ofNat (j + 1)) (JSNumber.ofNat (totalChunks file.size)))
          (JSNumber.ofNat 100))) ∧
    (∀ i, i < totalChunks file.size →
      JSNumber.lt (JSNumber.finite 0)
          (JSNumber.mul
            (JSNumber.div (JSNumber.ofNat (i + 1)) (JSNumber.ofNat (totalChunks file.size)))
            (JSNumber.ofNat 100)) ∧
        JSNumber.le
          (JSNumber.mul
            (JSNumber.div (JSNumber.ofNat (i + 1)) (JSNumber.ofNat (totalChunks file.size)))
            (JSNumber.ofNat 100))
          (JSNumber.finite 100)) ∧
    (sendLoop file (toString now) (totalChunks file.size)
        (sendInfo st file (toString now) (totalChunks file.size))
        (totalChunks file.size)).state.transferProgress.get (localKey (toString now)) =
      some (JSNumber.finite 100) ∧
    (sendFile st now file peerId).state.transferProgress.get (localKey (toString now)) =
      some (JSNumber.finite 100) := by
  have hb := totalChunks_le_of_size_lt file.size hsize
  have hlast : (sendLoop file (toString now) (totalChunks file.size)
        (sendInfo st file (toString now) (totalChunks file.size))
        (totalChunks file.size)).state.transferProgress.get (localKey (toString now)) =
      some (JSNumber.finite 100) := by
    obtain ⟨m, hm⟩ : ∃ m, totalChunks file.size = m + 1 := ⟨totalChunks file.size - 1, by omega⟩
    rw [hm, sendLoop_progress]
    simp only [sendProgress]
    rw [JSNumber.mul_div_ofNat (by omega) le_rfl, JSNumber.percent_self (by omega)]
  refine ⟨?_, ?_, ?_, hlast, ?_⟩
  · intro i _
    rw [sendLoop_progress]
    rfl
  · intro i j hij hj
    exact lt_of_percent_lt hn (by omega) (by omega)
      (JSNumber.percent_strictMono (by omega) (by omega) hb)
  · intro i hi
    constructor
    · have h := lt_of_percent_lt hn (Nat.zero_le _) (show i + 1 ≤ totalChunks file.size by omega)
        (JSNumber.percent_strictMono (Nat.succ_pos i) (by omega) hb)
      rw [JSNumber.mul_div_ofNat hn (Nat.zero_le _), JSNumber.percent_zero] at h
      exact h
    · have h := le_of_percent_le hn (show i + 1 ≤ totalChunks file.size by omega) le_rfl
        (JSNumber.percent_mono (show i + 1 ≤ totalChunks file.size by omega))
      rw [JSNumber.mul_div_ofNat hn le_rfl, JSNumber.percent_self hn] at h
      exact h
  · rw [sendFile_of_open st now file peerId ch hch hopen]
    exact hlast

/-- Witness for C7: the 40000-byte file sent to the connected peer "B" ends
with the progress entry of the transfer at 100. -/
theorem sendFile_progress_witness :
    (connectedTo "B").dataChannels.get "B" = some { readyState := ReadyState.opened } ∧
      (zeroFile "a.bin" 40000).size < 2 ^ 53 ∧
      1 ≤ totalChunks (zeroFile "a.bin" 40000).size ∧
      (sendFile (connectedTo "B") 1700000000000 (zeroFile "a.bin" 40000)
          "B").state.transferProgress.get (localKey (toString 1700000000000)) =
        some (JSNumber.finite 100) := by
  have hs : (zeroFile "a.bin" 40000).size < 2 ^ 53 := by rw [zeroFile_size]; norm_num
  have hn : totalChunks (zeroFile "a.bin" 40000).size = 3 :=
    totalChunks_eq_of_bounds _ 3 (by rw [zeroFile_size]; decide) (by rw [zeroFile_size]; decide)
  have hn1 : 1 ≤ totalChunks (zeroFile "a.bin" 40000).size := by rw [hn]; norm_num
  exact ⟨connectedTo_channel "B", hs, hn1,
    (sendFile_progress (connectedTo "B") 1700000000000 (zeroFile "a.bin" 40000) "B"
      { readyState := ReadyState.opened } (connectedTo_channel "B") rfl hs hn1).2.2.2.2⟩

/-- C8: handling a file-chunk envelope from `peerId` sets the progress entry
under the key of `(peerId, fileId)` to `chunkIndex / totalChunks * 100`,
computed from the announced numbers, and leaves every other key of the progress
table, the rest of the hook state, and the console and toasts untouched. -/
theorem handleFileChunk_frame (st : HookState) (peerId fileId : String)
    (chunkIndex total : JSNumber) :
    (∀ key : String,
      (handleDataChannelMessage
          (ChannelMessage.json (Envelope.fileChunk fileId chunkIndex total)) peerId
          st).1.transferProgress.get key =
        if key = peerKey peerId fileId then
          some (JSNumber.mul (JSNumber.div chunkIndex total) (JSNumber.ofNat 100))
        else st.transferProgress.get key) ∧
    (handleDataChannelMessage
        (ChannelMessage.json (Envelope.fileChunk fileId chunkIndex total)) peerId st).1 =
      { st with
        transferProgress :=
          (handleDataChannelMessage
            (ChannelMessage.json (Envelope.fileChunk fileId chunkIndex total)) peerId
            st).1.transferProgress } ∧
    (handleDataChannelMessage
        (ChannelMessage.json (Envelope.fileChunk fileId chunkIndex total)) peerId st).2 = [] := by
  refine ⟨?_, rfl, rfl⟩
  intro key
  simp only [handleDataChannelMessage, handleFileChunk, receiveProgress]
  by_cases hk : key = peerKey peerId fileId
  · rw [if_pos hk, hk, JSObject.get_set_self]
  · rw [if_neg hk, JSObject.get_set_of_ne _ _ _ _ hk]

/-- C9: after a file-complete message from `peerId` is handled the progress
table has no entry under the key of `(peerId, fileId)` and every other key reads
as before; the rest of the hook state is untouched, and when there was no such
entry the table is the same table. -/
theorem handleFileComplete_frame (st : HookState) (peerId fileId fileName : String) :
    (∀ key : String,
      (handleDataChannelMessage
          (ChannelMessage.json (Envelope.fileComplete fileId fileName)) peerId
          st).1.transferProgress.get key =
        if key = peerKey peerId fileId then none else st.transferProgress.get key) ∧
    (handleDataChannelMessage
        (ChannelMessage.json (Envelope.fileComplete fileId fileName)) peerId st).1 =
      { st with
        transferProgress :=
          (handleDataChannelMessage
            (ChannelMessage.json (Envelope.fileComplete fileId fileName)) peerId
            st).1.transferProgress } ∧
    (st.transferProgress.get (peerKey peerId fileId) = none →
      (handleDataChannelMessage
          (ChannelMessage.json (Envelope.fileComplete fileId fileName)) peerId st).1 = st) := by
  refine ⟨?_, rfl, ?_⟩
  · intro key
    simp only [handleDataChannelMessage, handleFileComplete]
    by_cases hk : key = peerKey peerId fileId
    · rw [if_pos hk, hk, JSObject.get_delete_self]
    · rw [if_neg hk, JSObject.get_delete_of_ne _ _ _ hk]
  · intro hnone
    simp only [handleDataChannelMessage, handleFileComplete]
    rw [JSObject.delete_of_get_none _ _ hnone]

/-- Witness for C9: a file-complete message handled in a fresh hook, whose
progress table is empty, leaves the fresh hook state. -/
theorem handleFileComplete_frame_witness :
    HookState.initial.transferProgress.get (peerKey "A" "1700000000000") = none ∧
      (handleDataChannelMessage
          (ChannelMessage.json (Envelope.fileComplete "1700000000000" "a.bin")) "A"
          HookState.initial).1 = HookState.initial :=
  ⟨rfl, (handleFileComplete_frame HookState.initial "A" "1700000000000" "a.bin").2.2 rfl⟩

/-- C10, counterexample: in a fresh hook, which has seen no file-info, a
file-chunk envelope from peer "B" for file id "X" with index 1 of 2 is acted
upon: the progress table, empty before, then holds 50 under the key "B-X". -/
theorem unannounced_chunk_writes_progress :
    HookState.initial.transferProgress = [] ∧
      (handleDataChannelMessage
          (ChannelMessage.json
            (Envelope.fileChunk "X" (JSNumber.ofNat 1) (JSNumber.ofNat 2))) "B"
          HookState.initial).1.transferProgress = [("B-X", JSNumber.finite 50)] := by
  refine ⟨rfl, ?_⟩
  simp only [handleDataChannelMessage, handleFileChunk, receiveProgress]
  rw [JSNumber.mul_div_ofNat (by norm_num) (by norm_num), JSNumber.percent_one_two]
  decide

/-- C10, amended: the receiver keeps no record of announced file ids. Handling
a file-info leaves the hook state as it was, so a file-chunk or file-complete
message has the same effect whether or not a file-info for its file id came
first: the file-chunk writes the progress entry of `(peerId, fileId)`, the
file-complete removes it. -/
theorem handlers_ignore_announcement (st : HookState) (peerId fileId fileName : String)
    (fileSize announced chunkIndex total : JSNumber) :
    (handleDataChannelMessage
        (ChannelMessage.json (Envelope.fileInfo fileId fileName fileSize announced)) peerId
        st).1 = st ∧
    (receiveAll peerId
        [ChannelMessage.json (Envelope.fileInfo fileId fileName fileSize announced),
         ChannelMessage.json (Envelope.fileChunk fileId chunkIndex total)] (st, [])).1 =
      (handleDataChannelMessage
        (ChannelMessage.json (Envelope.fileChunk fileId chunkIndex total)) peerId st).1 ∧
    (handleDataChannelMessage
        (ChannelMessage.json (Envelope.fileChunk fileId chunkIndex total)) peerId
        st).1.transferProgress.get (peerKey peerId fileId) =
      some (JSNumber.mul (JSNumber.div chunkIndex total) (JSNumber.ofNat 100)) ∧
    (receiveAll peerId
        [ChannelMessage.json (Envelope.fileInfo fileId fileName fileSize announced),
         ChannelMessage.json (Envelope.fileComplete fileId fileName)] (st, [])).1 =
      (handleDataChannelMessage
        (ChannelMessage.json (Envelope.fileComplete fileId fileName)) peerId st).1 ∧
    (handleDataChannelMessage
        (ChannelMessage.json (Envelope.fileComplete fileId fileName)) peerId st).1 =
      { st with
        transferProgress := st.transferProgress.delete (peerKey peerId fileId) } := by
  refine ⟨rfl, rfl, ?_, rfl, rfl⟩
  simp only [handleDataChannelMessage, handleFileChunk, receiveProgress]
  exact JSObject.get_set_self _ _ _

/-- C11, counterexample: a fresh hook, whose empty progress table holds only
percentages, handles a file-chunk envelope from peer "B" that declares index 5
of 2 chunks; the table then holds 250 under the key "B-X". -/
theorem chunk_envelope_writes_250 :
    AllPercentages HookState.initial.transferProgress ∧
      (handleDataChannelMessage
          (ChannelMessage.json
            (Envelope.fileChunk "X" (JSNumber.ofNat 5) (JSNumber.ofNat 2))) "B"
          HookState.initial).1.transferProgress.get "B-X" = some (JSNumber.finite 250) ∧
      ¬ AllPercentages
        (handleDataChannelMessage
          (ChannelMessage.json
            (Envelope.fileChunk "X" (JSNumber.ofNat 5) (JSNumber.ofNat 2))) "B"
          HookState.initial).1.transferProgress := by
  have hget : (handleDataChannelMessage
      (ChannelMessage.json (Envelope.fileChunk "X" (JSNumber.ofNat 5) (JSNumber.ofNat 2))) "B"
      HookState.initial).1.transferProgress.get "B-X" = some (JSNumber.finite 250) := by
    simp only [handleDataChannelMessage, handleFileChunk, receiveProgress]
    rw [progress_five_of_two]
    decide
  exact ⟨allPercentages_nil, hget, fun hall => not_isPercentage_250 (hall "B-X" _ hget)⟩

/-- C11, amended: the progress table of a fresh hook holds only percentages,
and a table that holds only percentages still does so after any call of
`sendFile` (and after each iteration of its chunk loop), after the handling of
a file-chunk envelope whose index and chunk count are natural numbers with
`chunkIndex <= totalChunks` and `totalChunks >= 1`, and after the handling of a
file-complete message. -/
theorem progress_table_percentages (st : HookState)
    (h : AllPercentages st.transferProgress) :
    AllPercentages HookState.initial.transferProgress ∧
    (∀ (now : ℕ) (file : File) (peerId : String),
      AllPercentages (sendFile st now file peerId).state.transferProgress) ∧
    (∀ (now : ℕ) (file : File) (k : ℕ), k ≤ totalChunks file.size →
      AllPercentages
        (sendLoop file (toString now) (totalChunks file.size)
          (sendInfo st file (toString now) (totalChunks file.size)) k).state.transferProgress) ∧
    (∀ (peerId fileId : String) (i n : ℕ), i ≤ n → 1 ≤ n →
      AllPercentages
        (handleDataChannelMessage
          (ChannelMessage.json
            (Envelope.fileChunk fileId (JSNumber.ofNat i) (JSNumber.ofNat n))) peerId
          st).1.transferProgress) ∧
    (∀ (peerId fileId fileName : String),
      AllPercentages
        (handleDataChannelMessage
          (ChannelMessage.json (Envelope.fileComplete fileId fileName)) peerId
          st).1.transferProgress) := by
  refine ⟨allPercentages_nil, ?_, ?_, ?_, ?_⟩
  · intro now file peerId
    exact allPercentages_sendFile st now file peerId h
  · intro now file k hk
    exact allPercentages_sendLoop file _ _ (sendInfo st file _ _) h k hk
  · intro peerId fileId i n hi hn
    simp only [handleDataChannelMessage, handleFileChunk, receiveProgress]
    exact allPercentages_set _ _ _ h (isPercentage_ratio (by omega) hi)
  · intro peerId fileId fileName
    simp only [handleDataChannelMessage, handleFileComplete]
    exact allPercentages_delete _ _ h

/-- Witness for C11 (amended): a fresh hook handles the envelope of chunk 1 of
2 from peer "A"; the table then holds only percentages. -/
theorem progress_table_percentages_witness :
    AllPercentages HookState.initial.transferProgress ∧
      AllPercentages
        (handleDataChannelMessage
          (ChannelMessage.json
            (Envelope.fileChunk "1700000000000" (JSNumber.ofNat 1) (JSNumber.ofNat 2))) "A"
          HookState.initial).1.transferProgress :=
  ⟨allPercentages_nil,
    (progress_table_percentages HookState.initial allPercentages_nil).2.2.2.1
      "A" "1700000000000" 1 2 (by norm_num) (by norm_num)⟩

/-- C12, the code at the failing input: a hook whose connection to "B" has
its local offer and no remote description yet, and whose candidate queue is
empty. Whatever the browser does, `handleIceCandidate` hands the candidate to
`addIceCandidate` at once: a rejection is the failure of the call, a success
changes the connection only, and the queue stays empty; `handleAnswer` then
applies the answer and nothing else. In a fresh hook, with no connection to
"B", the candidate is dropped. -/
theorem early_candidate_is_not_queued :
    (awaitingAnswer "B" "offer-sdp" ("B-1700000000000", JSNumber.finite 50)).peers.read "B" =
        Lookup.own { initiator := true, localDescription := some "offer-sdp",
                     remoteDescription := none, iceCandidates := [], closed := false } ∧
    (awaitingAnswer "B" "offer-sdp"
        ("B-1700000000000", JSNumber.finite 50)).iceCandidatesQueue = [] ∧
    (∀ (browser : Browser) (e : String),
      browser.addIceCandidate
          { initiator := true, localDescription := some "offer-sdp",
            remoteDescription := none, iceCandidates := [], closed := false }
          "candidate-1" = Except.error e →
      handleIceCandidate browser
          (awaitingAnswer "B" "offer-sdp" ("B-1700000000000", JSNumber.finite 50)) "B"
          "candidate-1" = Except.error e) ∧
    (∀ (browser : Browser) (changed : PeerConnection),
      browser.addIceCandidate
          { initiator := true, localDescription := some "offer-sdp",
            remoteDescription := none, iceCandidates := [], closed := false }
          "candidate-1" = Except.ok changed →
      handleIceCandidate browser
          (awaitingAnswer "B" "offer-sdp" ("B-1700000000000", JSNumber.finite 50)) "B"
          "candidate-1" =
        Except.ok
          { awaitingAnswer "B" "offer-sdp" ("B-1700000000000", JSNumber.finite 50) with
            peers := [("B", changed)] }) ∧
    (∀ (browser : Browser) (changed : PeerConnection),
      browser.setRemoteDescription
          { initiator := true, localDescription := some "offer-sdp",
            remoteDescription := none, iceCandidates := [], closed := false }
          "answer-sdp" = Except.ok changed →
      handleAnswer browser
          (awaitingAnswer "B" "offer-sdp" ("B-1700000000000", JSNumber.finite 50)) "B"
          "answer-sdp" =
        Except.ok
          { awaitingAnswer "B" "offer-sdp" ("B-1700000000000", JSNumber.finite 50) with
            peers := [("B", changed)] }) ∧
    (∀ browser : Browser,
      handleIceCandidate browser HookState.initial "B" "candidate-1" =
        Except.ok HookState.initial) := by
  have hread : (awaitingAnswer "B" "offer-sdp"
      ("B-1700000000000", JSNumber.finite 50)).peers.read "B" =
      Lookup.own { initiator := true, localDescription := some "offer-sdp",
                   remoteDescription := none, iceCandidates := [], closed := false } := rfl
  refine ⟨hread, rfl, ?_, ?_, ?_, ?_⟩
  · intro browser e herr
    simp only [handleIceCandidate, hread, herr]
  · intro browser changed hok
    simp only [handleIceCandidate, hread, hok]
    rfl
  · intro browser changed hok
    simp only [handleAnswer, hread, hok]
    rfl
  · intro browser
    rfl

/-- C13, counterexample: in a fresh hook, where no connection is registered for
"B", `handleAnswer` does not fail, whatever the browser does: it returns
normally with the state as it was. -/
theorem handleAnswer_unknown_peer_returns :
    HookState.initial.peers.read "B" = Lookup.undefined ∧
      ∀ browser : Browser,
        handleAnswer browser HookState.initial "B" "answer-sdp" =
          Except.ok HookState.initial :=
  ⟨rfl, fun _ => rfl⟩

/-- C13, amended: `handleAnswer` has no error of its own. When `peers[peerId]`
is undefined it returns normally and changes nothing; when `peerId` only names
an inherited member of `Object.prototype` the call fails with a `TypeError`;
for a registered connection it awaits `setRemoteDescription(answer)` whatever
the role or state of the connection, fails exactly when that call is rejected,
with its error, and otherwise succeeds with the connection as the browser left
it. A success leaves every other connection, the channels, the progress table
and the candidate queue as they were. -/
theorem handleAnswer_outcomes (browser : Browser) (st : HookState)
    (peerId answer : String) :
    (st.peers.read peerId = Lookup.undefined →
      handleAnswer browser st peerId answer = Except.ok st) ∧
    (st.peers.read peerId = Lookup.inherited →
      handleAnswer browser st peerId answer = Except.error "TypeError") ∧
    (∀ (pc : PeerConnection) (e : String), st.peers.read peerId = Lookup.own pc →
      browser.setRemoteDescription pc answer = Except.error e →
      handleAnswer browser st peerId answer = Except.error e) ∧
    (∀ pc changed : PeerConnection, st.peers.read peerId = Lookup.own pc →
      browser.setRemoteDescription pc answer = Except.ok changed →
      handleAnswer browser st peerId answer =
        Except.ok { st with peers := st.peers.set peerId changed }) ∧
    (∀ after : HookState, handleAnswer browser st peerId answer = Except.ok after →
      after.dataChannels = st.dataChannels ∧
        after.transferProgress = st.transferProgress ∧
        after.iceCandidatesQueue = st.iceCandidatesQueue ∧
        after.isConnected = st.isConnected ∧
        ∀ other : String, other ≠ peerId → after.peers.get other = st.peers.get other) := by
  refine ⟨?_, ?_, ?_, ?_, ?_⟩
  · intro h
    simp only [handleAnswer, h]
  · intro h
    simp only [handleAnswer, h]
  · intro pc e h herr
    simp only [handleAnswer, h, herr]
  · intro pc changed h hok
    simp only [handleAnswer, h, hok]
  · intro after hafter
    cases hread : st.peers.read peerId with
    | undefined =>
      simp only [handleAnswer, hread, Except.ok.injEq] at hafter
      subst hafter
      exact ⟨rfl, rfl, rfl, rfl, fun _ _ => rfl⟩
    | inherited => simp [handleAnswer, hread] at hafter
    | own pc =>
      cases hres : browser.setRemoteDescription pc answer with
      | error e => simp [handleAnswer, hread, hres] at hafter
      | ok changed =>
        simp only [handleAnswer, hread, hres, Except.ok.injEq] at hafter
        subst hafter
        exact ⟨rfl, rfl, rfl, rfl, fun other hne => JSObject.get_set_of_ne _ _ _ _ hne⟩

/-- Witness for C13 (amended): the name "constructor" is registered in no hook
and is inherited by the registry object, so `handleAnswer` fails with a
`TypeError` whatever the browser does. -/
theorem handleAnswer_outcomes_witness :
    HookState.initial.peers.read "constructor" = Lookup.inherited ∧
      ∀ browser : Browser,
        handleAnswer browser HookState.initial "constructor" "answer-sdp" =
          Except.error "TypeError" :=
  ⟨rfl, fun browser =>
    (handleAnswer_outcomes browser HookState.initial "constructor" "answer-sdp").2.1 rfl⟩

/-- C14, counterexample: a hook with a registered connection to "B", an open
channel to "B" and a progress entry of a transfer from "B". After
`disconnectPeer` the registry has no entry for "B", but the channel map still
has its entry, with the channel closed, and the progress table still has the
entry of the transfer. -/
theorem disconnectPeer_leaves_channel_and_progress :
    disconnectPeer (awaitingAnswer "B" "offer-sdp" ("B-1700000000000", JSNumber.finite 50))
        "B" =
      Except.ok
        { peers := []
          isConnected := true
          dataChannels := [("B", { readyState := ReadyState.closed })]
          transferProgress := [("B-1700000000000", JSNumber.finite 50)]
          iceCandidatesQueue := [] } ∧
    JSObject.get [("B", ({ readyState := ReadyState.closed } : DataChannel))] "B" =
      some { readyState := ReadyState.closed } ∧
    JSObject.get [("B-1700000000000", JSNumber.finite 50)] (peerKey "B" "1700000000000") =
      some (JSNumber.finite 50) :=
  ⟨rfl, rfl, rfl⟩

/-- C14, amended: for a registered peer `disconnectPeer` leaves the registry
without an entry for the peer; the channel map keeps all its keys, the channel
of the peer being closed (its entry goes when the close handler of the channel
runs), and the progress table, the connected flag and the candidate queue are
untouched; every other registered peer keeps its registry entry, the same
connection up to its being closed. When `peers[peerId]` is undefined nothing
changes; when `peerId` only names an inherited member of `Object.prototype` the
call throws a `TypeError`. -/
theorem disconnectPeer_frame (st : HookState) (peerId : String) :
    (st.peers.read peerId = Lookup.undefined → disconnectPeer st peerId = Except.ok st) ∧
    (st.peers.read peerId = Lookup.inherited →
      disconnectPeer st peerId = Except.error "TypeError") ∧
    (∀ pc : PeerConnection, st.peers.read peerId = Lookup.own pc →
      ∃ after : HookState, disconnectPeer st peerId = Except.ok after ∧
        after.peers.get peerId = none ∧
        (∀ other : String, other ≠ peerId →
          (after.peers.get other).map PeerConnection.close =
            (st.peers.get other).map PeerConnection.close) ∧
        (∀ key : String,
          (after.dataChannels.get key).isSome = (st.dataChannels.get key).isSome) ∧
        (∀ ch : DataChannel, st.dataChannels.get peerId = some ch →
          after.dataChannels.get peerId = some { readyState := ReadyState.closed }) ∧
        after.transferProgress = st.transferProgress ∧
        after.isConnected = st.isConnected ∧
        after.iceCandidatesQueue = st.iceCandidatesQueue ∧
        (dataChannelClosed after peerId).dataChannels.get peerId = none) := by
  refine ⟨?_, ?_, ?_⟩
  · intro h
    simp only [disconnectPeer, h]
  · intro h
    simp only [disconnectPeer, h]
  · intro pc h
    refine ⟨_, disconnectPeer_of_own st peerId pc h, ?_, ?_, ?_, ?_, rfl, rfl, rfl, ?_⟩
    · simp only [closeRegistered]
      rw [get_map_value (st.peers.delete peerId)
        (fun k v => if st.peers.hasOwn k then v.close else v) peerId,
        JSObject.get_delete_self]
      rfl
    · intro other hne
      rw [disconnectPeer_closes_others st peerId other hne]
      cases st.peers.get other with
      | none => rfl
      | some v => rfl
    · intro key
      simp only [closeRegistered]
      rw [get_map_value st.dataChannels
        (fun k v => if st.peers.hasOwn k then { readyState := ReadyState.closed } else v) key]
      cases st.dataChannels.get key with
      | none => rfl
      | some v => rfl
    · intro ch hch
      simp only [closeRegistered]
      rw [get_map_value st.dataChannels
        (fun k v => if st.peers.hasOwn k then { readyState := ReadyState.closed } else v)
        peerId, hch]
      simp [JSObject.hasOwn, get_of_read_own _ _ _ h]
    · exact JSObject.get_delete_self _ _

/-- Witness for C14 (amended): in a fresh hook `peers["B"]` is undefined and
`disconnectPeer` changes nothing; in a hook with a registered connection to
"B" the call succeeds and the registry has no entry for "B" afterwards. -/
theorem disconnectPeer_frame_witness :
    HookState.initial.peers.read "B" = Lookup.undefined ∧
      disconnectPeer HookState.initial "B" = Except.ok HookState.initial ∧
      (awaitingAnswer "B" "offer-sdp" ("B-1700000000000", JSNumber.finite 50)).peers.read "B" =
        Lookup.own { initiator := true, localDescription := some "offer-sdp",
                     remoteDescription := none, iceCandidates := [], closed := false } ∧
      ∃ after : HookState,
        disconnectPeer (awaitingAnswer "B" "offer-sdp" ("B-1700000000000", JSNumber.finite 50))
            "B" = Except.ok after ∧
          after.peers.get "B" = none := by
  obtain ⟨after, hrun, hgone, _⟩ :=
    (disconnectPeer_frame
      (awaitingAnswer "B" "offer-sdp" ("B-1700000000000", JSNumber.finite 50)) "B").2.2 _ rfl
  exact ⟨rfl, (disconnectPeer_frame HookState.initial "B").1 rfl, rfl, after, hrun, hgone⟩

/-- C15, the code at the failing input: the 40000-byte file sent to the
connected peer "B". The last message sent is file-complete, and in the state
`sendFile` returns the progress table still holds the sender-side entry of the
transfer, at 100. -/
theorem sender_entry_stays_after_completion :
    (sendFile (connectedTo "B") 1700000000000 (zeroFile "a.bin" 40000) "B").sent.getLast? =
        some (ChannelMessage.json
          (Envelope.fileComplete (toString 1700000000000) "a.bin")) ∧
      (sendFile (connectedTo "B") 1700000000000 (zeroFile "a.bin" 40000)
          "B").state.transferProgress.get (localKey (toString 1700000000000)) =
        some (JSNumber.finite 100) := by
  have hn : totalChunks (zeroFile "a.bin" 40000).size = 3 :=
    totalChunks_eq_of_bounds _ 3 (by rw [zeroFile_size]; decide) (by rw [zeroFile_size]; decide)
  exact ⟨sendFile_last_message (connectedTo "B") 1700000000000 (zeroFile "a.bin" 40000) "B"
      { readyState := ReadyState.opened } (connectedTo_channel "B") rfl,
    sendFile_final_progress (connectedTo "B") 1700000000000 (zeroFile "a.bin" 40000) "B"
      { readyState := ReadyState.opened } (connectedTo_channel "B") rfl (by rw [hn]; norm_num)⟩

/-- C16, counterexample: two calls of `sendFile` by the same sender, for two
different files, that read the same clock value announce the same file id. -/
theorem same_clock_same_fileId :
    announcedFileId (sendFile (connectedTo "B") 1700000000000 (zeroFile "a.bin" 1) "B") =
        some (toString 1700000000000) ∧
      announcedFileId (sendFile (connectedTo "B") 1700000000000 (zeroFile "b.bin" 2) "B") =
        some (toString 1700000000000) ∧
      zeroFile "a.bin" 1 ≠ zeroFile "b.bin" 2 :=
  ⟨announcedFileId_sendFile (connectedTo "B") 1700000000000 (zeroFile "a.bin" 1) "B"
      { readyState := ReadyState.opened } (connectedTo_channel "B") rfl,
    announcedFileId_sendFile (connectedTo "B") 1700000000000 (zeroFile "b.bin" 2) "B"
      { readyState := ReadyState.opened } (connectedTo_channel "B") rfl,
    by decide⟩

/-- C16, amended: the file id of a transfer is the decimal string of the clock
value its `sendFile` call reads, so two calls over open channels are assigned
different file ids exactly when they read different clock values. -/
theorem fileId_distinct_iff_clock_distinct (st₁ st₂ : HookState) (now₁ now₂ : ℕ)
    (file₁ file₂ : File) (peer₁ peer₂ : String) (ch₁ ch₂ : DataChannel)
    (hch₁ : st₁.dataChannels.get peer₁ = some ch₁) (hopen₁ : ch₁.readyState = ReadyState.opened)
    (hch₂ : st₂.dataChannels.get peer₂ = some ch₂)
    (hopen₂ : ch₂.readyState = ReadyState.opened) :
    announcedFileId (sendFile st₁ now₁ file₁ peer₁) = some (toString now₁) ∧
    announcedFileId (sendFile st₂ now₂ file₂ peer₂) = some (toString now₂) ∧
    (announcedFileId (sendFile st₁ now₁ file₁ peer₁) ≠
        announcedFileId (sendFile st₂ now₂ file₂ peer₂) ↔ now₁ ≠ now₂) := by
  have h₁ := announcedFileId_sendFile st₁ now₁ file₁ peer₁ ch₁ hch₁ hopen₁
  have h₂ := announcedFileId_sendFile st₂ now₂ file₂ peer₂ ch₂ hch₂ hopen₂
  refine ⟨h₁, h₂, ?_⟩
  rw [h₁, h₂]
  constructor
  · intro hne heq
    exact hne (by rw [heq])
  · intro hne heq
    exact hne (toString_nat_injective now₁ now₂ (Option.some.inj heq))

/-- Witness for C16 (amended): two calls one millisecond apart get different
file ids. -/
theorem fileId_distinct_iff_clock_distinct_witness :
    (connectedTo "B").dataChannels.get "B" = some { readyState := ReadyState.opened } ∧
      announcedFileId (sendFile (connectedTo "B") 1700000000000 (zeroFile "a.bin" 1) "B") ≠
        announcedFileId (sendFile (connectedTo "B") 1700000000001 (zeroFile "a.bin" 1) "B") :=
  ⟨connectedTo_channel "B",
    (fileId_distinct_iff_clock_distinct (connectedTo "B") (connectedTo "B") 1700000000000
      1700000000001 (zeroFile "a.bin" 1) (zeroFile "a.bin" 1) "B" "B"
      { readyState := ReadyState.opened } { readyState := ReadyState.opened }
      (connectedTo_channel "B") rfl (connectedTo_channel "B") rfl).2.2.mpr (by decide)⟩

/-- C17: for every double `r` with `0 <= r < 1` that `Math.random()` returns,
`generateRoomCode` returns the decimal string of an integer from 100000 to
999999; the string has length 6 and passes the length test of `joinRoom` and of
the join from the URL parameter. -/
theorem generateRoomCode_six_digits (r : ℚ) (h0 : 0 ≤ r) (h1 : r < 1)
    (hr : JSNumber.IsDouble r) :
    ∃ n : ℕ, 100000 ≤ n ∧ n ≤ 999999 ∧
      generateRoomCode (JSNumber.finite r) = toString n ∧
      (generateRoomCode (JSNumber.finite r)).length = 6 ∧
      hasRoomCodeLength (generateRoomCode (JSNumber.finite r)) = true := by
  obtain ⟨n, hlo, hhi, hn⟩ := generateRoomCode_eq h0 h1 hr
  have hlen : (generateRoomCode (JSNumber.finite r)).length = 6 := by
    rw [hn]
    exact toString_nat_length_six n hlo hhi
  exact ⟨n, hlo, hhi, hn, hlen, hasRoomCodeLength_of_length _ hlen⟩

/-- Witness for C17: the random value 1/2 gives the room code "550000". -/
theorem generateRoomCode_six_digits_witness :
    (0 : ℚ) ≤ 1 / 2 ∧ (1 : ℚ) / 2 < 1 ∧ JSNumber.IsDouble (1 / 2) ∧
      generateRoomCode (JSNumber.finite (1 / 2)) = "550000" ∧
      (generateRoomCode (JSNumber.finite (1 / 2))).length = 6 ∧
      hasRoomCodeLength (generateRoomCode (JSNumber.finite (1 / 2))) = true := by
  obtain ⟨n, _, _, _, hlen, hcheck⟩ :=
    generateRoomCode_six_digits (1 / 2) (by norm_num) (by norm_num) isDouble_half
  exact ⟨by norm_num, by norm_num, isDouble_half, generateRoomCode_half, hlen, hcheck⟩

/-- C18, counterexample: the transfers received from peer "a-b" with file id
"c" and from peer "a" with file id "b-c" are different and have the same key,
and so have the transfer sent with file id "5" and the one received from a peer
called "local" with file id "5"; a file-complete message from that peer removes
the progress entry of the sent transfer. -/
theorem progress_keys_collide :
    Transfer.received "a-b" "c" ≠ Transfer.received "a" "b-c" ∧
      (Transfer.received "a-b" "c").key = (Transfer.received "a" "b-c").key ∧
      Transfer.sent "5" ≠ Transfer.received "local" "5" ∧
      (Transfer.sent "5").key = (Transfer.received "local" "5").key ∧
      (handleDataChannelMessage
          (ChannelMessage.json (Envelope.fileComplete "5" "x.bin")) "local"
          { HookState.initial with
            transferProgress := [(localKey "5", JSNumber.finite 50)] }).1.transferProgress.get
        (Transfer.sent "5").key = none := by
  decide

/-- C18, amended: among the transfers sent by this hook and those received
from peers whose id contains no dash and is not the word `local`, different
transfers have different keys, so writing or removing the progress entry of
one leaves the entry of the other as it was. -/
theorem separable_keys_distinct (t₁ t₂ : Transfer) (h₁ : t₁.Separable) (h₂ : t₂.Separable)
    (hne : t₁ ≠ t₂) :
    t₁.key ≠ t₂.key ∧
      ∀ (table : JSObject JSNumber) (v : JSNumber),
        (table.set t₁.key v).get t₂.key = table.get t₂.key ∧
          (table.delete t₁.key).get t₂.key = table.get t₂.key := by
  have hkey : t₁.key ≠ t₂.key := fun h => hne (key_injective t₁ t₂ h₁ h₂ h)
  refine ⟨hkey, ?_⟩
  intro table v
  exact ⟨JSObject.get_set_of_ne _ _ _ _ (Ne.symm hkey),
    JSObject.get_delete_of_ne _ _ _ (Ne.symm hkey)⟩

/-- Witness for C18 (amended): the transfer received from "peer1" and the
transfer sent, both with file id "1700000000000". -/
theorem separable_keys_distinct_witness :
    (Transfer.received "peer1" "1700000000000").Separable ∧
      (Transfer.sent "1700000000000").Separable ∧
      Transfer.received "peer1" "1700000000000" ≠ Transfer.sent "1700000000000" ∧
      (Transfer.received "peer1" "1700000000000").key ≠ (Transfer.sent "1700000000000").key :=
  ⟨⟨by decide, by decide⟩, trivial, by decide,
    (separable_keys_distinct (Transfer.received "peer1" "1700000000000")
      (Transfer.sent "1700000000000") ⟨by decide, by decide⟩ trivial (by decide)).1⟩

end WebRTC
